import Mathlib

/-!
Shallow embedding of src/pypower/pfsoln.py.

The function pfsoln updates bus, generator and branch tables to match a
converged power-flow voltage solution.  Floating-point numbers of the source
are modelled as exact rationals; complex numbers as pairs of rationals.
The source's tables are lists of records, one record per table row, with a
rest field holding every column the function neither reads nor writes.
numpy's abs and angle on complex values are irrational-valued and are
abstracted as function parameters npAbs and npAngle; the float constant
numpy.pi is the binary64 value NP_PI, and the machine epsilon
numpy.finfo(float).eps is the exact rational EPS = 2 ^ (-52).
-/

namespace PFSoln

/-- A complex number with rational real and imaginary parts, modelling the
complex floating-point scalars of the source. -/
structure CQ where
  re : ℚ
  im : ℚ
deriving DecidableEq

instance : Zero CQ := ⟨⟨0, 0⟩⟩

instance : Add CQ := ⟨fun a b => ⟨a.re + b.re, a.im + b.im⟩⟩

instance : Mul CQ := ⟨fun a b => ⟨a.re * b.re - a.im * b.im, a.re * b.im + a.im * b.re⟩⟩

/-- Complex conjugate, modelling numpy.conj. -/
def CQ.conj (z : CQ) : CQ := ⟨z.re, -z.im⟩

/-- Multiplication of a complex value by a real scalar. -/
def CQ.smul (c : ℚ) (z : CQ) : CQ := ⟨c * z.re, c * z.im⟩

/-- One row of the bus table: the columns read or written by pfsoln
(VM, VA, PD, QD) plus a rest field for all remaining columns. -/
structure Bus where
  vm : ℚ
  va : ℚ
  pd : ℚ
  qd : ℚ
  rest : List ℚ
deriving DecidableEq

instance : Inhabited Bus := ⟨⟨0, 0, 0, 0, []⟩⟩

/-- One row of the generator table: the columns read or written by pfsoln
(GEN_BUS, GEN_STATUS, PG, QG, QMIN, QMAX) plus a rest field. -/
structure Gen where
  bus : ℕ
  status : ℚ
  pg : ℚ
  qg : ℚ
  qmin : ℚ
  qmax : ℚ
  rest : List ℚ
deriving DecidableEq

instance : Inhabited Gen := ⟨⟨0, 0, 0, 0, 0, 0, []⟩⟩

/-- One row of the branch table: the columns read or written by pfsoln
(F_BUS, T_BUS, BR_STATUS, PF, QF, PT, QT) plus a rest field. -/
structure Branch where
  fbus : ℕ
  tbus : ℕ
  status : ℚ
  pf : ℚ
  qf : ℚ
  pt : ℚ
  qt : ℚ
  rest : List ℚ
deriving DecidableEq

instance : Inhabited Branch := ⟨⟨0, 0, 0, 0, 0, 0, 0, []⟩⟩

/-- The error raised by a pfsoln run.  indexError models the numpy
IndexError raised by refgen[0] on an empty refgen array.
configurationError is modelled from the spec: the spec's error taxonomy
asks for a descriptive configuration error when the reference bus has no
on-line generator; the source never constructs such an error. -/
inductive PfError where
  | indexError : PfError
  | configurationError : PfError
deriving DecidableEq

/-- Machine epsilon of binary64, the exact value of numpy.finfo(float).eps. -/
def EPS : ℚ := 1 / 2 ^ 52

/-- The binary64 value of numpy.pi, as an exact rational. -/
def NP_PI : ℚ := 884279719003555 / 281474976710656

/-- The list of values f 0, ..., f (n-1), modelling a numpy array built
index by index. -/
def tabulate {α : Type} (n : ℕ) (f : ℕ → α) : List α := (List.range n).map f

/-- Position of the first occurrence of i in l (l.length if absent). -/
def posIn : List ℕ → ℕ → ℕ
  | [], _ => 0
  | a :: t, i => if a = i then 0 else posIn t i + 1

section Model

variable (baseMVA : ℚ) (bus : List Bus) (gen0 : List Gen) (branch0 : List Branch)
variable (Ybus Yf Yt : ℕ → ℕ → CQ) (V : List CQ) (ref : ℕ)
variable (npAbs npAngle : CQ → ℚ)

/-- Indices of on-line generators, in increasing order: the source's
on = find(gen[:, GEN_STATUS] > 0). -/
def onIdx : List ℕ :=
  (List.range gen0.length).filter fun i => decide (0 < (gen0.getD i default).status)

/-- The k-th on-line generator's row of the generator table. -/
def genOn (k : ℕ) : Gen := gen0.getD ((onIdx gen0).getD k 0) default

/-- The bus of the k-th on-line generator: the source's gbus = gen[on, GEN_BUS]. -/
def gbusAt (k : ℕ) : ℕ := (genOn gen0 k).bus

/-- Positions (within onIdx) of the on-line generators located at bus b. -/
def busGens (b : ℕ) : List ℕ :=
  (List.range (onIdx gen0).length).filter fun k => decide (gbusAt gen0 k = b)

/-- Positions of the on-line generators at the reference bus: the source's
refgen = find(gbus == ref). -/
def refgenIdx : List ℕ := busGens gen0 ref

/-- Net complex power injected at bus b, per unit: the source's
V[b] * conj(Ybus[b, :] * V), with the row-by-vector product written out. -/
def SgBus (b : ℕ) : CQ :=
  V.getD b 0 * CQ.conj (((List.range V.length).map fun j => Ybus b j * V.getD j 0).sum)

/-- Reactive power first assigned to the k-th on-line generator: the bus's
net injected reactive power scaled by baseMVA plus the bus's local reactive
load, the source's Sg.imag * baseMVA + bus[gbus, QD]. -/
def qgInj (k : ℕ) : ℚ :=
  (SgBus Ybus V (gbusAt gen0 k)).im * baseMVA + (bus.getD (gbusAt gen0 k) default).qd

/-- Number of on-line generators at the k-th on-line generator's bus: the
source's ngg = Cg * Cg.sum(0).T. -/
def nggAt (k : ℕ) : ℕ := (busGens gen0 (gbusAt gen0 k)).length

/-- Equally split reactive output of the k-th on-line generator: the source's
gen[on, QG] / ngg. -/
def qgEqAt (k : ℕ) : ℚ := qgInj baseMVA bus gen0 Ybus V k / (nggAt gen0 k : ℚ)

/-- Total equally-split reactive output at bus b: the source's
Qg_tot = Cg.T * gen[on, QG]. -/
def Qg_tot (b : ℕ) : ℚ :=
  ((busGens gen0 b).map fun k => qgEqAt baseMVA bus gen0 Ybus V k).sum

/-- Sum of QMIN over the on-line generators at bus b: the source's
Qg_min = Cmin.sum(0).T. -/
def Qg_min (b : ℕ) : ℚ := ((busGens gen0 b).map fun k => (genOn gen0 k).qmin).sum

/-- Sum of QMAX over the on-line generators at bus b: the source's
Qg_max = Cmax.sum(0).T. -/
def Qg_max (b : ℕ) : ℚ := ((busGens gen0 b).map fun k => (genOn gen0 k).qmax).sum

/-- Proportionally re-split reactive output of the k-th on-line generator.
Generators at a bus whose aggregate range has zero width (the source's
ig = find(Cg * Qg_min == Cg * Qg_max)) keep their equal-split value
(the source's Qg_save); every other on-line generator gets
gen[on, QMIN] + (Qg_tot - Qg_min) / (Qg_max - Qg_min + EPS) * (QMAX - QMIN). -/
def qgPropAt (k : ℕ) : ℚ :=
  if Qg_min gen0 (gbusAt gen0 k) = Qg_max gen0 (gbusAt gen0 k) then
    qgEqAt baseMVA bus gen0 Ybus V k
  else
    (genOn gen0 k).qmin +
      (Qg_tot baseMVA bus gen0 Ybus V (gbusAt gen0 k) - Qg_min gen0 (gbusAt gen0 k)) /
        (Qg_max gen0 (gbusAt gen0 k) - Qg_min gen0 (gbusAt gen0 k) + EPS) *
      ((genOn gen0 k).qmax - (genOn gen0 k).qmin)

/-- Final reactive output of the k-th on-line generator: when at most one
generator is on-line the split block (if len(on) > 1) is skipped and the
initial assignment stands; otherwise the proportional re-split applies. -/
def qgAt (k : ℕ) : ℚ :=
  if (onIdx gen0).length ≤ 1 then qgInj baseMVA bus gen0 Ybus V k
  else qgPropAt baseMVA bus gen0 Ybus V k

/-- The generator table after the reactive-power update: QG of every
generator is zeroed, then every on-line generator receives its final
reactive output; no other column is written. -/
def updateQg : List Gen :=
  tabulate gen0.length fun i =>
    let g := gen0.getD i default
    if 0 < g.status then
      { g with qg := qgAt baseMVA bus gen0 Ybus V (posIn (onIdx gen0) i) }
    else
      { g with qg := 0 }

/-- Absolute generator-table index of the anchor generator, the source's
on[refgen[0]]: the first on-line generator at the reference bus. -/
def anchorAbs : ℕ := (onIdx gen0).getD ((refgenIdx gen0 ref).getD 0 0) 0

/-- Real power assigned to the anchor generator: the reference bus's net
injected real power scaled by baseMVA plus its local real load, minus the
real outputs already recorded for the other on-line reference-bus
generators (an empty sum when the reference bus hosts a single on-line
generator, matching the source's guarded subtraction). -/
def pgAnchor (genCur : List Gen) : ℚ :=
  (SgBus Ybus V (gbusAt gen0 ((refgenIdx gen0 ref).getD 0 0))).re * baseMVA +
    (bus.getD ref default).pd -
    (((refgenIdx gen0 ref).drop 1).map fun r =>
      (genCur.getD ((onIdx gen0).getD r 0) default).pg).sum

/-- The generator table after the swing-bus real-power update: only the
anchor generator's PG entry is written. -/
def updatePg (genCur : List Gen) : List Gen :=
  tabulate genCur.length fun i =>
    if i = anchorAbs gen0 ref then
      { genCur.getD i default with pg := pgAnchor baseMVA bus gen0 Ybus V ref genCur }
    else genCur.getD i default

/-- The branch table after the flow update: every in-service branch
(BR_STATUS nonzero) receives the from-end and to-end complex power flows,
every out-of-service branch gets zero in all four flow fields. -/
def updateBranch : List Branch :=
  tabulate branch0.length fun j =>
    let b := branch0.getD j default
    if b.status ≠ 0 then
      let Sf := CQ.smul baseMVA (V.getD b.fbus 0 *
        CQ.conj (((List.range V.length).map fun j2 => Yf j j2 * V.getD j2 0).sum))
      let St := CQ.smul baseMVA (V.getD b.tbus 0 *
        CQ.conj (((List.range V.length).map fun j2 => Yt j j2 * V.getD j2 0).sum))
      { b with pf := Sf.re, qf := Sf.im, pt := St.re, qt := St.im }
    else
      { b with pf := 0, qf := 0, pt := 0, qt := 0 }

/-- The bus table after the voltage update: VM is overwritten with the
absolute value of the bus's solved voltage and VA with its angle scaled by
180 / pi; no other column is written. -/
def updateBusV : List Bus :=
  tabulate bus.length fun i =>
    { bus.getD i default with
      vm := npAbs (V.getD i 0)
      va := npAngle (V.getD i 0) * 180 / NP_PI }

/-- The embedding of pfsoln.  The arguments pv and pq are accepted and
ignored exactly as in the source.  When the reference bus has no on-line
generator the source's refgen[0] raises a numpy IndexError, modelled by
the error branch. -/
def pfsoln (pv pq : List ℕ) : Except PfError (List Bus × List Gen × List Branch) :=
  let bus1 := updateBusV bus V npAbs npAngle
  let gen1 := updateQg baseMVA bus1 gen0 Ybus V
  if refgenIdx gen0 ref = [] then Except.error PfError.indexError
  else
    Except.ok (bus1,
      updatePg baseMVA bus1 gen0 Ybus V ref gen1,
      updateBranch baseMVA branch0 Yf Yt V)

end Model

/-- Sum of the reactive outputs of the on-line generators located at bus b,
read off a generator table. -/
def onlineQgSumAtBus (g : List Gen) (b : ℕ) : ℚ :=
  ((g.filter fun x => decide (0 < x.status) && decide (x.bus = b)).map fun x => x.qg).sum

/-- Sum of the real outputs of the on-line generators located at bus b,
read off a generator table. -/
def onlinePgSumAtBus (g : List Gen) (b : ℕ) : ℚ :=
  ((g.filter fun x => decide (0 < x.status) && decide (x.bus = b)).map fun x => x.pg).sum

/-- Concrete input: one bus hosting one on-line and one off-line generator,
one in-service and one out-of-service branch. -/
def busA : List Bus := [⟨1, 0, 5, 7, [9]⟩]

def genA : List Gen := [⟨0, 1, 11, 13, -3, 4, [8]⟩, ⟨0, 0, 6, 6, 0, 0, [2]⟩]

def branchA : List Branch := [⟨0, 0, 1, 0, 0, 0, 0, [3]⟩, ⟨0, 0, 0, 9, 9, 9, 9, [4]⟩]

def YbusA : ℕ → ℕ → CQ := fun _ _ => ⟨1, 1⟩

def YfA : ℕ → ℕ → CQ := fun _ _ => ⟨0, 1⟩

def YtA : ℕ → ℕ → CQ := fun _ _ => ⟨1, 0⟩

def VA2 : List CQ := [⟨3, 4⟩]

def npAbsA : CQ → ℚ := fun z => z.re

def npAngleA : CQ → ℚ := fun _ => 0

/-- The bus table written by pfsoln on the concrete input above. -/
def busOutA : List Bus := [⟨3, 0, 5, 7, [9]⟩]

/-- The generator table written by pfsoln on the concrete input above. -/
def genOutA : List Gen := [⟨0, 1, 55, -43, -3, 4, [8]⟩, ⟨0, 0, 6, 0, 0, 0, [2]⟩]

/-- The branch table written by pfsoln on the concrete input above. -/
def branchOutA : List Branch :=
  [⟨0, 0, 1, 0, -50, 50, 0, [3]⟩, ⟨0, 0, 0, 0, 0, 0, 0, [4]⟩]

/-- Concrete single-bus input (no loads) whose net injected reactive power
at bus 0 is 20: used by the reactive-split scenarios. -/
def busB : List Bus := [⟨1, 0, 0, 0, []⟩]

def branchB : List Branch := []

def YbusB : ℕ → ℕ → CQ := fun _ _ => ⟨0, -20⟩

def YfB : ℕ → ℕ → CQ := fun _ _ => 0

def YtB : ℕ → ℕ → CQ := fun _ _ => 0

def VB : List CQ := [⟨1, 0⟩]

def npAbsB : CQ → ℚ := fun _ => 0

def npAngleB : CQ → ℚ := fun _ => 0

/-- Two on-line generators at bus 0; the first has the zero-width reactive
range [5, 5], the second the range [0, 10]. -/
def genB : List Gen := [⟨0, 1, 3, 7, 5, 5, []⟩, ⟨0, 1, 2, 9, 0, 10, []⟩]

/-- Two on-line generators at bus 0 with ranges [0, 10] and [0, 30]. -/
def genC : List Gen := [⟨0, 1, 3, 7, 0, 10, []⟩, ⟨0, 1, 2, 9, 0, 30, []⟩]

/-- Two on-line generators at bus 0 with identical ranges [0, 10]. -/
def genD : List Gen := [⟨0, 1, 3, 7, 0, 10, []⟩, ⟨0, 1, 2, 9, 0, 10, []⟩]

/-- One on-line generator located at bus 1 while the reference bus is 0:
the reference bus has no on-line generator. -/
def genE : List Gen := [⟨1, 1, 3, 7, 0, 10, []⟩]

/-- The bus table written by pfsoln on the single-bus inputs above. -/
def busOutB : List Bus := [⟨0, 0, 0, 0, []⟩]

/-- The generator table written by pfsoln on genB: the zero-width generator
ends at its QMIN, not at its equal-split value 10. -/
def genOutB : List Gen :=
  [⟨0, 1, -2, 5, 5, 5, []⟩, ⟨0, 1, 2, 150 / (10 + EPS), 0, 10, []⟩]

/-- The generator table written by pfsoln on genC. -/
def genOutC : List Gen :=
  [⟨0, 1, -2, 200 / (40 + EPS), 0, 10, []⟩, ⟨0, 1, 2, 600 / (40 + EPS), 0, 30, []⟩]

/-- The generator table written by pfsoln on genD. -/
def genOutD : List Gen :=
  [⟨0, 1, -2, 200 / (20 + EPS), 0, 10, []⟩, ⟨0, 1, 2, 200 / (20 + EPS), 0, 10, []⟩]

/-- Two generator tables that agree in length and, row by row, in the
columns read by the reactive-split computation (GEN_BUS, GEN_STATUS, QMIN,
QMAX); the split's outcome depends on the input table only through these. -/
structure GenShapeEq (g' gen0 : List Gen) : Prop where
  len : g'.length = gen0.length
  statusEq : ∀ i, i < gen0.length →
    (g'.getD i default).status = (gen0.getD i default).status
  busEq : ∀ i, i < gen0.length → (g'.getD i default).bus = (gen0.getD i default).bus
  qminEq : ∀ i, i < gen0.length → (g'.getD i default).qmin = (gen0.getD i default).qmin
  qmaxEq : ∀ i, i < gen0.length → (g'.getD i default).qmax = (gen0.getD i default).qmax

@[simp] theorem CQ.zero_re : (0 : CQ).re = 0 := rfl

@[simp] theorem CQ.zero_im : (0 : CQ).im = 0 := rfl

@[simp] theorem CQ.add_zero (z : CQ) : z + 0 = z := by
  cases z; show CQ.mk _ _ = _; simp

@[simp] theorem CQ.zero_add (z : CQ) : 0 + z = z := by
  cases z; show CQ.mk _ _ = _; simp

@[simp] theorem CQ.mk_add (a b c d : ℚ) :
    (⟨a, b⟩ : CQ) + ⟨c, d⟩ = ⟨a + c, b + d⟩ := rfl

@[simp] theorem CQ.mk_mul (a b c d : ℚ) :
    (⟨a, b⟩ : CQ) * ⟨c, d⟩ = ⟨a * c - b * d, a * d + b * c⟩ := rfl

@[simp] theorem CQ.conj_mk (a b : ℚ) : CQ.conj ⟨a, b⟩ = ⟨a, -b⟩ := rfl

@[simp] theorem CQ.smul_mk (c a b : ℚ) : CQ.smul c ⟨a, b⟩ = ⟨c * a, c * b⟩ := rfl

@[simp] theorem CQ.mk_re (a b : ℚ) : (⟨a, b⟩ : CQ).re = a := rfl

@[simp] theorem CQ.mk_im (a b : ℚ) : (⟨a, b⟩ : CQ).im = b := rfl

@[simp] theorem tabulate_length {α : Type} (n : ℕ) (f : ℕ → α) :
    (tabulate n f).length = n := by
  simp [tabulate]

theorem getD_tabulate {α : Type} {n i : ℕ} (f : ℕ → α) (d : α) (h : i < n) :
    (tabulate n f).getD i d = f i := by
  rw [List.getD_eq_getElem _ _ (by simpa using h)]
  simp [tabulate]

theorem getD_of_length_le {α : Type} {l : List α} {i : ℕ} (d : α) (h : l.length ≤ i) :
    l.getD i d = d := by
  rw [List.getD_eq_getElem?_getD, List.getElem?_eq_none (by simpa using h)]
  rfl

theorem posIn_getD {l : List ℕ} (hn : l.Nodup) {k : ℕ} (hk : k < l.length) :
    posIn l (l.getD k 0) = k := by
  induction l generalizing k with
  | nil => simp at hk
  | cons a t ih =>
    cases k with
    | zero => simp [posIn]
    | succ k =>
      have hk' : k < t.length := by simpa using hk
      have hmem : t.getD k 0 ∈ t := by
        rw [List.getD_eq_getElem t 0 hk']; exact List.getElem_mem hk'
      have hne : a ≠ t.getD k 0 := fun h => (List.nodup_cons.mp hn).1 (h ▸ hmem)
      rw [List.getD_cons_succ]
      show (if a = t.getD k 0 then 0 else posIn t (t.getD k 0) + 1) = k + 1
      rw [if_neg hne, ih (List.nodup_cons.mp hn).2 hk']

theorem onIdx_nodup (gen0 : List Gen) : (onIdx gen0).Nodup :=
  (List.nodup_range _).filter _

theorem mem_onIdx {gen0 : List Gen} {i : ℕ} :
    i ∈ onIdx gen0 ↔ i < gen0.length ∧ 0 < (gen0.getD i default).status := by
  simp [onIdx, List.mem_filter]

theorem onIdx_getD_mem {gen0 : List Gen} {k : ℕ} (hk : k < (onIdx gen0).length) :
    (onIdx gen0).getD k 0 ∈ onIdx gen0 := by
  rw [List.getD_eq_getElem _ _ hk]; exact List.getElem_mem hk

theorem map_getD_filter_range (l : List ℕ) (p : ℕ → Bool) :
    (((List.range l.length).filter fun k => p (l.getD k 0)).map fun k => l.getD k 0) =
      l.filter p := by
  induction l with
  | nil => simp
  | cons a t ih =>
    have h1 : (((List.range t.length).map Nat.succ).filter
        fun k => p ((a :: t).getD k 0)) =
        ((List.range t.length).filter fun k => p (t.getD k 0)).map Nat.succ :=
      List.filter_map Nat.succ (List.range t.length)
    have h2 : ((fun k => (a :: t).getD k 0) ∘ Nat.succ) = fun k => t.getD k 0 := rfl
    by_cases hpa : p a = true
    · simp only [List.length_cons, List.range_succ_eq_map, List.filter_cons,
        List.getD_cons_zero, hpa, if_true, List.map_cons, h1, List.map_map, h2, ih]
    · simp only [List.length_cons, List.range_succ_eq_map, List.filter_cons,
        List.getD_cons_zero, hpa, if_false, List.map_cons, h1, List.map_map, h2, ih,
        Bool.false_eq_true]

theorem list_sum_map_const {α : Type} (l : List α) (c : ℚ) :
    (l.map fun _ => c).sum = l.length * c := by
  induction l with
  | nil => simp
  | cons a t ih =>
    simp only [List.map_cons, List.sum_cons, ih, List.length_cons]
    push_cast
    ring

section Lemmas

variable (baseMVA : ℚ) (bus : List Bus) (gen0 : List Gen) (branch0 : List Branch)
variable (Ybus Yf Yt : ℕ → ℕ → CQ) (V : List CQ) (ref : ℕ)
variable (npAbs npAngle : CQ → ℚ)

theorem updateBusV_length : (updateBusV bus V npAbs npAngle).length = bus.length := by
  rw [updateBusV, tabulate_length]

theorem updateBusV_getD {i : ℕ} (d : Bus) (h : i < bus.length) :
    (updateBusV bus V npAbs npAngle).getD i d =
      { bus.getD i default with
        vm := npAbs (V.getD i 0)
        va := npAngle (V.getD i 0) * 180 / NP_PI } := by
  rw [updateBusV, getD_tabulate _ _ h]

theorem updateBusV_qd (b : ℕ) :
    ((updateBusV bus V npAbs npAngle).getD b default).qd = (bus.getD b default).qd := by
  by_cases h : b < bus.length
  · rw [updateBusV_getD bus V npAbs npAngle default h]
  · rw [getD_of_length_le default
        (by rw [updateBusV_length bus V npAbs npAngle]; exact le_of_not_lt h),
      getD_of_length_le default (le_of_not_lt h)]

theorem updateBusV_pd (b : ℕ) :
    ((updateBusV bus V npAbs npAngle).getD b default).pd = (bus.getD b default).pd := by
  by_cases h : b < bus.length
  · rw [updateBusV_getD bus V npAbs npAngle default h]
  · rw [getD_of_length_le default
        (by rw [updateBusV_length bus V npAbs npAngle]; exact le_of_not_lt h),
      getD_of_length_le default (le_of_not_lt h)]

theorem qgInj_updateBusV (k : ℕ) :
    qgInj baseMVA (updateBusV bus V npAbs npAngle) gen0 Ybus V k =
      qgInj baseMVA bus gen0 Ybus V k := by
  rw [qgInj, qgInj, updateBusV_qd]

theorem qgEqAt_updateBusV (k : ℕ) :
    qgEqAt baseMVA (updateBusV bus V npAbs npAngle) gen0 Ybus V k =
      qgEqAt baseMVA bus gen0 Ybus V k := by
  rw [qgEqAt, qgEqAt, qgInj_updateBusV]

theorem Qg_tot_updateBusV (b : ℕ) :
    Qg_tot baseMVA (updateBusV bus V npAbs npAngle) gen0 Ybus V b =
      Qg_tot baseMVA bus gen0 Ybus V b := by
  simp only [Qg_tot, qgEqAt_updateBusV]

theorem qgPropAt_updateBusV (k : ℕ) :
    qgPropAt baseMVA (updateBusV bus V npAbs npAngle) gen0 Ybus V k =
      qgPropAt baseMVA bus gen0 Ybus V k := by
  simp only [qgPropAt, Qg_tot_updateBusV, qgEqAt_updateBusV]

theorem qgAt_updateBusV (k : ℕ) :
    qgAt baseMVA (updateBusV bus V npAbs npAngle) gen0 Ybus V k =
      qgAt baseMVA bus gen0 Ybus V k := by
  simp only [qgAt, qgPropAt_updateBusV, qgInj_updateBusV]

theorem updateQg_length : (updateQg baseMVA bus gen0 Ybus V).length = gen0.length := by
  rw [updateQg, tabulate_length]

theorem updateQg_getD {i : ℕ} (d : Gen) (h : i < gen0.length) :
    (updateQg baseMVA bus gen0 Ybus V).getD i d =
      (if 0 < (gen0.getD i default).status then
        { gen0.getD i default with
          qg := qgAt baseMVA bus gen0 Ybus V (posIn (onIdx gen0) i) }
      else { gen0.getD i default with qg := 0 }) := by
  rw [updateQg, getD_tabulate _ _ h]

theorem updatePg_length (genCur : List Gen) :
    (updatePg baseMVA bus gen0 Ybus V ref genCur).length = genCur.length := by
  rw [updatePg, tabulate_length]

theorem updatePg_getD (genCur : List Gen) {i : ℕ} (d : Gen) (h : i < genCur.length) :
    (updatePg baseMVA bus gen0 Ybus V ref genCur).getD i d =
      (if i = anchorAbs gen0 ref then
        { genCur.getD i default with pg := pgAnchor baseMVA bus gen0 Ybus V ref genCur }
      else genCur.getD i default) := by
  rw [updatePg, getD_tabulate _ _ h]

theorem updateBranch_length : (updateBranch baseMVA branch0 Yf Yt V).length = branch0.length := by
  rw [updateBranch, tabulate_length]

theorem updateBranch_getD {j : ℕ} (d : Branch) (h : j < branch0.length) :
    (updateBranch baseMVA branch0 Yf Yt V).getD j d =
      (if (branch0.getD j default).status ≠ 0 then
        { branch0.getD j default with
          pf := (CQ.smul baseMVA (V.getD (branch0.getD j default).fbus 0 *
            CQ.conj (((List.range V.length).map
              fun j2 => Yf j j2 * V.getD j2 0).sum))).re
          qf := (CQ.smul baseMVA (V.getD (branch0.getD j default).fbus 0 *
            CQ.conj (((List.range V.length).map
              fun j2 => Yf j j2 * V.getD j2 0).sum))).im
          pt := (CQ.smul baseMVA (V.getD (branch0.getD j default).tbus 0 *
            CQ.conj (((List.range V.length).map
              fun j2 => Yt j j2 * V.getD j2 0).sum))).re
          qt := (CQ.smul baseMVA (V.getD (branch0.getD j default).tbus 0 *
            CQ.conj (((List.range V.length).map
              fun j2 => Yt j j2 * V.getD j2 0).sum))).im }
      else { branch0.getD j default with pf := 0, qf := 0, pt := 0, qt := 0 }) := by
  rw [updateBranch, getD_tabulate _ _ h]

theorem updateBranch_keeps {j : ℕ} (d : Branch) (h : j < branch0.length) :
    ((updateBranch baseMVA branch0 Yf Yt V).getD j d).fbus =
        (branch0.getD j default).fbus ∧
      ((updateBranch baseMVA branch0 Yf Yt V).getD j d).tbus =
        (branch0.getD j default).tbus ∧
      ((updateBranch baseMVA branch0 Yf Yt V).getD j d).status =
        (branch0.getD j default).status ∧
      ((updateBranch baseMVA branch0 Yf Yt V).getD j d).rest =
        (branch0.getD j default).rest := by
  rw [updateBranch_getD baseMVA branch0 Yf Yt V d h]
  by_cases hst : (branch0.getD j default).status ≠ 0
  · rw [if_pos hst]; exact ⟨rfl, rfl, rfl, rfl⟩
  · rw [if_neg hst]; exact ⟨rfl, rfl, rfl, rfl⟩

theorem updateBranch_out {j : ℕ} (d : Branch) (h : j < branch0.length)
    (hst : (branch0.getD j default).status = 0) :
    (updateBranch baseMVA branch0 Yf Yt V).getD j d =
      { branch0.getD j default with pf := 0, qf := 0, pt := 0, qt := 0 } := by
  rw [updateBranch_getD baseMVA branch0 Yf Yt V d h, if_neg (fun hc => hc hst)]

theorem pfsoln_ok_elim {pv pq : List ℕ} {out : List Bus × List Gen × List Branch}
    (h : pfsoln baseMVA bus gen0 branch0 Ybus Yf Yt V ref npAbs npAngle pv pq =
      Except.ok out) :
    refgenIdx gen0 ref ≠ [] ∧
      out = (updateBusV bus V npAbs npAngle,
        updatePg baseMVA (updateBusV bus V npAbs npAngle) gen0 Ybus V ref
          (updateQg baseMVA (updateBusV bus V npAbs npAngle) gen0 Ybus V),
        updateBranch baseMVA branch0 Yf Yt V) := by
  rw [pfsoln] at h
  by_cases hr : refgenIdx gen0 ref = []
  · rw [if_pos hr] at h; exact absurd h (by simp)
  · rw [if_neg hr] at h
    exact ⟨hr, (Except.ok.inj h).symm⟩

theorem updateQg_status {i : ℕ} (d : Gen) (h : i < gen0.length) :
    ((updateQg baseMVA bus gen0 Ybus V).getD i d).status = (gen0.getD i default).status := by
  rw [updateQg_getD baseMVA bus gen0 Ybus V d h]
  by_cases hs : 0 < (gen0.getD i default).status
  · rw [if_pos hs]
  · rw [if_neg hs]

theorem updateQg_bus {i : ℕ} (d : Gen) (h : i < gen0.length) :
    ((updateQg baseMVA bus gen0 Ybus V).getD i d).bus = (gen0.getD i default).bus := by
  rw [updateQg_getD baseMVA bus gen0 Ybus V d h]
  by_cases hs : 0 < (gen0.getD i default).status
  · rw [if_pos hs]
  · rw [if_neg hs]

theorem updateQg_pg {i : ℕ} (d : Gen) (h : i < gen0.length) :
    ((updateQg baseMVA bus gen0 Ybus V).getD i d).pg = (gen0.getD i default).pg := by
  rw [updateQg_getD baseMVA bus gen0 Ybus V d h]
  by_cases hs : 0 < (gen0.getD i default).status
  · rw [if_pos hs]
  · rw [if_neg hs]

theorem updateQg_qmin {i : ℕ} (d : Gen) (h : i < gen0.length) :
    ((updateQg baseMVA bus gen0 Ybus V).getD i d).qmin = (gen0.getD i default).qmin := by
  rw [updateQg_getD baseMVA bus gen0 Ybus V d h]
  by_cases hs : 0 < (gen0.getD i default).status
  · rw [if_pos hs]
  · rw [if_neg hs]

theorem updateQg_qmax {i : ℕ} (d : Gen) (h : i < gen0.length) :
    ((updateQg baseMVA bus gen0 Ybus V).getD i d).qmax = (gen0.getD i default).qmax := by
  rw [updateQg_getD baseMVA bus gen0 Ybus V d h]
  by_cases hs : 0 < (gen0.getD i default).status
  · rw [if_pos hs]
  · rw [if_neg hs]

theorem updateQg_rest {i : ℕ} (d : Gen) (h : i < gen0.length) :
    ((updateQg baseMVA bus gen0 Ybus V).getD i d).rest = (gen0.getD i default).rest := by
  rw [updateQg_getD baseMVA bus gen0 Ybus V d h]
  by_cases hs : 0 < (gen0.getD i default).status
  · rw [if_pos hs]
  · rw [if_neg hs]

theorem updateQg_qg_on {i : ℕ} (d : Gen) (h : i < gen0.length)
    (hs : 0 < (gen0.getD i default).status) :
    ((updateQg baseMVA bus gen0 Ybus V).getD i d).qg =
      qgAt baseMVA bus gen0 Ybus V (posIn (onIdx gen0) i) := by
  rw [updateQg_getD baseMVA bus gen0 Ybus V d h, if_pos hs]

theorem updateQg_qg_off {i : ℕ} (d : Gen) (h : i < gen0.length)
    (hs : ¬ 0 < (gen0.getD i default).status) :
    ((updateQg baseMVA bus gen0 Ybus V).getD i d).qg = 0 := by
  rw [updateQg_getD baseMVA bus gen0 Ybus V d h, if_neg hs]

theorem updatePg_status (genCur : List Gen) {i : ℕ} (d : Gen) (h : i < genCur.length) :
    ((updatePg baseMVA bus gen0 Ybus V ref genCur).getD i d).status =
      (genCur.getD i default).status := by
  rw [updatePg_getD baseMVA bus gen0 Ybus V ref genCur d h]
  by_cases hi : i = anchorAbs gen0 ref
  · rw [if_pos hi]
  · rw [if_neg hi]

theorem updatePg_bus (genCur : List Gen) {i : ℕ} (d : Gen) (h : i < genCur.length) :
    ((updatePg baseMVA bus gen0 Ybus V ref genCur).getD i d).bus =
      (genCur.getD i default).bus := by
  rw [updatePg_getD baseMVA bus gen0 Ybus V ref genCur d h]
  by_cases hi : i = anchorAbs gen0 ref
  · rw [if_pos hi]
  · rw [if_neg hi]

theorem updatePg_qg (genCur : List Gen) {i : ℕ} (d : Gen) (h : i < genCur.length) :
    ((updatePg baseMVA bus gen0 Ybus V ref genCur).getD i d).qg =
      (genCur.getD i default).qg := by
  rw [updatePg_getD baseMVA bus gen0 Ybus V ref genCur d h]
  by_cases hi : i = anchorAbs gen0 ref
  · rw [if_pos hi]
  · rw [if_neg hi]

theorem updatePg_qmin (genCur : List Gen) {i : ℕ} (d : Gen) (h : i < genCur.length) :
    ((updatePg baseMVA bus gen0 Ybus V ref genCur).getD i d).qmin =
      (genCur.getD i default).qmin := by
  rw [updatePg_getD baseMVA bus gen0 Ybus V ref genCur d h]
  by_cases hi : i = anchorAbs gen0 ref
  · rw [if_pos hi]
  · rw [if_neg hi]

theorem updatePg_qmax (genCur : List Gen) {i : ℕ} (d : Gen) (h : i < genCur.length) :
    ((updatePg baseMVA bus gen0 Ybus V ref genCur).getD i d).qmax =
      (genCur.getD i default).qmax := by
  rw [updatePg_getD baseMVA bus gen0 Ybus V ref genCur d h]
  by_cases hi : i = anchorAbs gen0 ref
  · rw [if_pos hi]
  · rw [if_neg hi]

theorem updatePg_rest (genCur : List Gen) {i : ℕ} (d : Gen) (h : i < genCur.length) :
    ((updatePg baseMVA bus gen0 Ybus V ref genCur).getD i d).rest =
      (genCur.getD i default).rest := by
  rw [updatePg_getD baseMVA bus gen0 Ybus V ref genCur d h]
  by_cases hi : i = anchorAbs gen0 ref
  · rw [if_pos hi]
  · rw [if_neg hi]

theorem updatePg_pg_other (genCur : List Gen) {i : ℕ} (d : Gen) (h : i < genCur.length)
    (hi : i ≠ anchorAbs gen0 ref) :
    ((updatePg baseMVA bus gen0 Ybus V ref genCur).getD i d).pg =
      (genCur.getD i default).pg := by
  rw [updatePg_getD baseMVA bus gen0 Ybus V ref genCur d h, if_neg hi]

theorem updatePg_pg_anchor (genCur : List Gen) (d : Gen)
    (h : anchorAbs gen0 ref < genCur.length) :
    ((updatePg baseMVA bus gen0 Ybus V ref genCur).getD (anchorAbs gen0 ref) d).pg =
      pgAnchor baseMVA bus gen0 Ybus V ref genCur := by
  rw [updatePg_getD baseMVA bus gen0 Ybus V ref genCur d h, if_pos rfl]

end Lemmas

theorem list_eq_tabulate {α : Type} [Inhabited α] (l : List α) :
    l = tabulate l.length fun i => l.getD i default := by
  apply List.ext_getElem (by simp)
  intro n h1 h2
  simp only [tabulate, List.getElem_map, List.getElem_range]
  exact (List.getD_eq_getElem l default h1).symm

theorem mem_busGens {gen0 : List Gen} {b k : ℕ} :
    k ∈ busGens gen0 b ↔ k < (onIdx gen0).length ∧ gbusAt gen0 k = b := by
  simp [busGens, List.mem_filter]

theorem sum_filter_tabulate (gen0 : List Gen) (f : ℕ → Gen) (val : Gen → ℚ) (b : ℕ)
    (hstat : ∀ i, i < gen0.length → (f i).status = (gen0.getD i default).status)
    (hbus : ∀ i, i < gen0.length → (f i).bus = (gen0.getD i default).bus) :
    (((tabulate gen0.length f).filter fun x =>
        decide (0 < x.status) && decide (x.bus = b)).map val).sum =
      ((busGens gen0 b).map fun k => val (f ((onIdx gen0).getD k 0))).sum := by
  have key : ((tabulate gen0.length f).filter fun x =>
      decide (0 < x.status) && decide (x.bus = b)).map val =
      (busGens gen0 b).map fun k => val (f ((onIdx gen0).getD k 0)) := by
    rw [tabulate, List.filter_map, List.map_map]
    have hP : ∀ i ∈ List.range gen0.length,
        ((fun x => decide (0 < x.status) && decide (x.bus = b)) ∘ f) i =
          (decide ((gen0.getD i default).bus = b) &&
            decide (0 < (gen0.getD i default).status)) := by
      intro i hi
      have hi' := List.mem_range.mp hi
      simp only [Function.comp, hstat i hi', hbus i hi']
      rw [Bool.and_comm]
    rw [List.filter_congr hP, ← List.filter_filter]
    show ((onIdx gen0).filter fun i =>
      decide ((gen0.getD i default).bus = b)).map (val ∘ f) = _
    rw [← map_getD_filter_range (onIdx gen0) fun i =>
      decide ((gen0.getD i default).bus = b)]
    rw [List.map_map]
    rfl
  rw [key]

theorem onlineSum_over (g' gen0 : List Gen) (val : Gen → ℚ) (b : ℕ)
    (hlen : g'.length = gen0.length)
    (hstat : ∀ i, i < gen0.length →
      (g'.getD i default).status = (gen0.getD i default).status)
    (hbus : ∀ i, i < gen0.length → (g'.getD i default).bus = (gen0.getD i default).bus) :
    ((g'.filter fun x => decide (0 < x.status) && decide (x.bus = b)).map val).sum =
      ((busGens gen0 b).map fun k => val (g'.getD ((onIdx gen0).getD k 0) default)).sum := by
  have h0 : g' = tabulate gen0.length fun i => g'.getD i default := by
    rw [← hlen]; exact list_eq_tabulate g'
  rw [h0]
  have := sum_filter_tabulate gen0 (fun i => g'.getD i default) val b hstat hbus
  rw [this]
  apply congrArg
  apply List.map_eq_map_iff.mpr
  intro k hk
  rw [← h0]

theorem list_sum_map_sub {α : Type} (l : List α) (f g : α → ℚ) :
    (l.map fun i => f i - g i).sum = (l.map f).sum - (l.map g).sum := by
  induction l with
  | nil => simp
  | cons a t ih => simp only [List.map_cons, List.sum_cons, ih]; ring

theorem EPS_pos : 0 < EPS := by norm_num [EPS]

theorem qg_out_bridge (baseMVA : ℚ) (bus1 : List Bus) (gen0 : List Gen)
    (Ybus : ℕ → ℕ → CQ) (V : List CQ) (ref b : ℕ) :
    onlineQgSumAtBus
      (updatePg baseMVA bus1 gen0 Ybus V ref (updateQg baseMVA bus1 gen0 Ybus V)) b =
      ((busGens gen0 b).map fun k => qgAt baseMVA bus1 gen0 Ybus V k).sum := by
  have hql := updateQg_length baseMVA bus1 gen0 Ybus V
  have hlen : (updatePg baseMVA bus1 gen0 Ybus V ref
      (updateQg baseMVA bus1 gen0 Ybus V)).length = gen0.length := by
    rw [updatePg_length, hql]
  have hstat : ∀ i, i < gen0.length →
      ((updatePg baseMVA bus1 gen0 Ybus V ref
        (updateQg baseMVA bus1 gen0 Ybus V)).getD i default).status =
        (gen0.getD i default).status := by
    intro i hi
    rw [updatePg_status baseMVA bus1 gen0 Ybus V ref _ default (by rw [hql]; exact hi),
      updateQg_status baseMVA bus1 gen0 Ybus V default hi]
  have hbus : ∀ i, i < gen0.length →
      ((updatePg baseMVA bus1 gen0 Ybus V ref
        (updateQg baseMVA bus1 gen0 Ybus V)).getD i default).bus =
        (gen0.getD i default).bus := by
    intro i hi
    rw [updatePg_bus baseMVA bus1 gen0 Ybus V ref _ default (by rw [hql]; exact hi),
      updateQg_bus baseMVA bus1 gen0 Ybus V default hi]
  rw [onlineQgSumAtBus, onlineSum_over _ gen0 _ b hlen hstat hbus]
  apply congrArg
  apply List.map_eq_map_iff.mpr
  intro k hk
  obtain ⟨hk1, hk2⟩ := mem_busGens.mp hk
  obtain ⟨hlt, hpos⟩ := mem_onIdx.mp (onIdx_getD_mem hk1)
  rw [updatePg_qg baseMVA bus1 gen0 Ybus V ref _ default (by rw [hql]; exact hlt),
    updateQg_qg_on baseMVA bus1 gen0 Ybus V default hlt hpos,
    posIn_getD (onIdx_nodup gen0) hk1]

theorem qg_balance_core (baseMVA : ℚ) (bus : List Bus) (gen0 : List Gen)
    (Ybus : ℕ → ℕ → CQ) (V : List CQ) (b : ℕ)
    (hqr : ∀ k, k < (onIdx gen0).length → (genOn gen0 k).qmin ≤ (genOn gen0 k).qmax)
    (hhost : ∃ k, k < (onIdx gen0).length ∧ gbusAt gen0 k = b) :
    |((busGens gen0 b).map fun k => qgAt baseMVA bus gen0 Ybus V k).sum -
        ((SgBus Ybus V b).im * baseMVA + (bus.getD b default).qd)| ≤
      EPS * |(SgBus Ybus V b).im * baseMVA + (bus.getD b default).qd - Qg_min gen0 b| /
        (Qg_max gen0 b - Qg_min gen0 b + EPS) := by
  obtain ⟨k0, hk0, hb0⟩ := hhost
  have hk0m : k0 ∈ busGens gen0 b := mem_busGens.mpr ⟨hk0, hb0⟩
  have hnb : (busGens gen0 b).length ≠ 0 := by
    intro h
    rw [List.length_eq_zero] at h
    rw [h] at hk0m
    exact absurd hk0m (List.not_mem_nil k0)
  have hR : 0 ≤ Qg_max gen0 b - Qg_min gen0 b := by
    have := List.sum_le_sum (l := busGens gen0 b)
      (f := fun k => (genOn gen0 k).qmin) (g := fun k => (genOn gen0 k).qmax) ?_
    · rw [Qg_max, Qg_min]; linarith
    · intro k hk
      exact hqr k (mem_busGens.mp hk).1
  have hD : 0 < Qg_max gen0 b - Qg_min gen0 b + EPS := by
    have := EPS_pos; linarith
  have hRHS : 0 ≤ EPS *
      |(SgBus Ybus V b).im * baseMVA + (bus.getD b default).qd - Qg_min gen0 b| /
      (Qg_max gen0 b - Qg_min gen0 b + EPS) := by
    apply div_nonneg _ (le_of_lt hD)
    exact mul_nonneg (le_of_lt EPS_pos) (abs_nonneg _)
  have hinj : ∀ k ∈ busGens gen0 b, qgInj baseMVA bus gen0 Ybus V k =
      (SgBus Ybus V b).im * baseMVA + (bus.getD b default).qd := by
    intro k hk
    rw [qgInj, (mem_busGens.mp hk).2]
  have hngg : ∀ k ∈ busGens gen0 b, nggAt gen0 k = (busGens gen0 b).length := by
    intro k hk
    rw [nggAt, (mem_busGens.mp hk).2]
  have htot : Qg_tot baseMVA bus gen0 Ybus V b =
      (SgBus Ybus V b).im * baseMVA + (bus.getD b default).qd := by
    rw [Qg_tot]
    have hcongr : (busGens gen0 b).map
        (fun k => qgEqAt baseMVA bus gen0 Ybus V k) =
        (busGens gen0 b).map (fun _ =>
          ((SgBus Ybus V b).im * baseMVA + (bus.getD b default).qd) /
            ((busGens gen0 b).length : ℚ)) := by
      apply List.map_eq_map_iff.mpr
      intro k hk
      rw [qgEqAt, hinj k hk, hngg k hk]
    rw [hcongr, list_sum_map_const]
    have : ((busGens gen0 b).length : ℚ) ≠ 0 := Nat.cast_ne_zero.mpr hnb
    field_simp
  by_cases hc : (onIdx gen0).length ≤ 1
  · have hone : (busGens gen0 b).length = 1 := by
      have hle : (busGens gen0 b).length ≤ (onIdx gen0).length := by
        rw [busGens]
        calc ((List.range (onIdx gen0).length).filter
            fun k => decide (gbusAt gen0 k = b)).length ≤
            (List.range (onIdx gen0).length).length := List.length_filter_le _ _
          _ = (onIdx gen0).length := List.length_range _
      omega
    obtain ⟨k1, hks⟩ := List.length_eq_one.mp hone
    have hsum : ((busGens gen0 b).map fun k => qgAt baseMVA bus gen0 Ybus V k).sum =
        (SgBus Ybus V b).im * baseMVA + (bus.getD b default).qd := by
      have hk1m : k1 ∈ busGens gen0 b := by rw [hks]; exact List.mem_singleton_self k1
      rw [hks, List.map_singleton, List.sum_singleton, qgAt, if_pos hc,
        hinj k1 (hks ▸ hk1m)]
    rw [hsum, sub_self, abs_zero]
    exact hRHS
  · have hsplit : ((busGens gen0 b).map fun k => qgAt baseMVA bus gen0 Ybus V k) =
        (busGens gen0 b).map fun k => qgPropAt baseMVA bus gen0 Ybus V k := by
      apply List.map_eq_map_iff.mpr
      intro k _
      rw [qgAt, if_neg hc]
    rw [hsplit]
    by_cases hdeg : Qg_min gen0 b = Qg_max gen0 b
    · have hprop : ((busGens gen0 b).map fun k => qgPropAt baseMVA bus gen0 Ybus V k) =
          (busGens gen0 b).map fun k => qgEqAt baseMVA bus gen0 Ybus V k := by
        apply List.map_eq_map_iff.mpr
        intro k hk
        rw [qgPropAt, (mem_busGens.mp hk).2, if_pos hdeg]
      rw [hprop]
      have : ((busGens gen0 b).map fun k => qgEqAt baseMVA bus gen0 Ybus V k).sum =
          Qg_tot baseMVA bus gen0 Ybus V b := rfl
      rw [this, htot, sub_self, abs_zero]
      exact hRHS
    · have hprop : ((busGens gen0 b).map fun k => qgPropAt baseMVA bus gen0 Ybus V k) =
          (busGens gen0 b).map fun k => (genOn gen0 k).qmin +
            ((Qg_tot baseMVA bus gen0 Ybus V b - Qg_min gen0 b) /
              (Qg_max gen0 b - Qg_min gen0 b + EPS)) *
            ((genOn gen0 k).qmax - (genOn gen0 k).qmin) := by
        apply List.map_eq_map_iff.mpr
        intro k hk
        rw [qgPropAt, (mem_busGens.mp hk).2, if_neg hdeg]
      rw [hprop, List.sum_map_add, List.sum_map_mul_left, list_sum_map_sub]
      rw [htot]
      have hQmin : ((busGens gen0 b).map fun k => (genOn gen0 k).qmin).sum =
          Qg_min gen0 b := rfl
      have hQmax : ((busGens gen0 b).map fun k => (genOn gen0 k).qmax).sum =
          Qg_max gen0 b := rfl
      rw [hQmin, hQmax]
      have hDne : Qg_max gen0 b - Qg_min gen0 b + EPS ≠ 0 := ne_of_gt hD
      have hkey : Qg_min gen0 b +
          (((SgBus Ybus V b).im * baseMVA + (bus.getD b default).qd - Qg_min gen0 b) /
            (Qg_max gen0 b - Qg_min gen0 b + EPS)) * (Qg_max gen0 b - Qg_min gen0 b) -
          ((SgBus Ybus V b).im * baseMVA + (bus.getD b default).qd) =
          -(EPS * ((SgBus Ybus V b).im * baseMVA + (bus.getD b default).qd -
            Qg_min gen0 b) / (Qg_max gen0 b - Qg_min gen0 b + EPS)) := by
        field_simp
        ring
      rw [hkey, abs_neg, abs_div, abs_of_pos hD, abs_mul, abs_of_pos EPS_pos]

section Examples

theorem pfsolnA_eval : pfsoln 2 busA genA branchA YbusA YfA YtA VA2 0 npAbsA npAngleA [] [] =
    Except.ok (busOutA, genOutA, branchOutA) := by
  norm_num [pfsoln, updateBusV, updateQg, updatePg, updateBranch, tabulate, onIdx,
    genOn, gbusAt, busGens, refgenIdx, SgBus, qgInj, nggAt, qgEqAt, Qg_tot, Qg_min,
    Qg_max, qgPropAt, qgAt, anchorAbs, pgAnchor, posIn, CQ.conj, CQ.smul, EPS,
    NP_PI, busA, genA, branchA, YbusA, YfA, YtA, VA2, npAbsA, npAngleA,
    busOutA, genOutA, branchOutA, List.range_succ, List.getD]

end Examples

/-- C1: after pfsoln returns, for every bus b that hosts at least one
on-line generator, the sum of the reactive outputs of the on-line
generators at b equals the bus's net injected reactive power (the
imaginary part of V_b times the conjugate of the b-th Ybus row dotted
with V, scaled by baseMVA) plus the bus's local reactive load, within
floating-point tolerance: the deviation is bounded by the machine epsilon
EPS scaled by input-dependent factors, and is due solely to the EPS guard
in the proportional-split denominator.  The generator ranges are assumed
well formed (QMIN at most QMAX for on-line generators). -/
theorem busQg_balance
    (baseMVA : ℚ) (bus : List Bus) (gen0 : List Gen) (branch0 : List Branch)
    (Ybus Yf Yt : ℕ → ℕ → CQ) (V : List CQ) (ref : ℕ) (npAbs npAngle : CQ → ℚ)
    (pv pq : List ℕ) (b : ℕ)
    (b' : List Bus) (g' : List Gen) (br' : List Branch)
    (h : pfsoln baseMVA bus gen0 branch0 Ybus Yf Yt V ref npAbs npAngle pv pq =
      Except.ok (b', g', br'))
    (hqr : ∀ k, k < (onIdx gen0).length → (genOn gen0 k).qmin ≤ (genOn gen0 k).qmax)
    (hhost : ∃ k, k < (onIdx gen0).length ∧ gbusAt gen0 k = b) :
    |onlineQgSumAtBus g' b -
        ((SgBus Ybus V b).im * baseMVA + (bus.getD b default).qd)| ≤
      EPS * |(SgBus Ybus V b).im * baseMVA + (bus.getD b default).qd - Qg_min gen0 b| /
        (Qg_max gen0 b - Qg_min gen0 b + EPS) := by
  obtain ⟨-, hout⟩ :=
    pfsoln_ok_elim baseMVA bus gen0 branch0 Ybus Yf Yt V ref npAbs npAngle h
  rw [Prod.mk.injEq, Prod.mk.injEq] at hout
  obtain ⟨hb, hg, hbr⟩ := hout
  rw [hg, qg_out_bridge]
  have hAt : ((busGens gen0 b).map fun k =>
      qgAt baseMVA (updateBusV bus V npAbs npAngle) gen0 Ybus V k) =
      (busGens gen0 b).map fun k => qgAt baseMVA bus gen0 Ybus V k := by
    apply List.map_eq_map_iff.mpr
    intro k _
    exact qgAt_updateBusV baseMVA bus gen0 Ybus V npAbs npAngle k
  rw [hAt]
  exact qg_balance_core baseMVA bus gen0 Ybus V b hqr hhost

/-- Witness for busQg_balance at the concrete input busA genA branchA. -/
theorem busQg_balance_witness :
    (pfsoln 2 busA genA branchA YbusA YfA YtA VA2 0 npAbsA npAngleA [] [] =
      Except.ok (busOutA, genOutA, branchOutA)) ∧
    (∀ k, k < (onIdx genA).length → (genOn genA k).qmin ≤ (genOn genA k).qmax) ∧
    (∃ k, k < (onIdx genA).length ∧ gbusAt genA k = 0) ∧
    |onlineQgSumAtBus genOutA 0 -
        ((SgBus YbusA VA2 0).im * 2 + (busA.getD 0 default).qd)| ≤
      EPS * |(SgBus YbusA VA2 0).im * 2 + (busA.getD 0 default).qd - Qg_min genA 0| /
        (Qg_max genA 0 - Qg_min genA 0 + EPS) := by
  have hqrA : ∀ k, k < (onIdx genA).length → (genOn genA k).qmin ≤ (genOn genA k).qmax := by
    intro k hk
    have h1 : (onIdx genA).length = 1 := by
      norm_num [onIdx, genA, List.range_succ]
    rw [h1] at hk
    interval_cases k
    norm_num [genOn, onIdx, genA, List.range_succ]
  have hhostA : ∃ k, k < (onIdx genA).length ∧ gbusAt genA k = 0 := by
    refine ⟨0, ?_, ?_⟩
    · norm_num [onIdx, genA, List.range_succ]
    · norm_num [gbusAt, genOn, onIdx, genA, List.range_succ, List.getD]
  exact ⟨pfsolnA_eval, hqrA, hhostA,
    busQg_balance 2 busA genA branchA YbusA YfA YtA VA2 0 npAbsA npAngleA [] [] 0
      busOutA genOutA branchOutA pfsolnA_eval hqrA hhostA⟩

theorem anchor_mem (gen0 : List Gen) (ref : ℕ) (hr : refgenIdx gen0 ref ≠ []) :
    anchorAbs gen0 ref < gen0.length ∧
      0 < (gen0.getD (anchorAbs gen0 ref) default).status := by
  have h0 : (refgenIdx gen0 ref).getD 0 0 ∈ refgenIdx gen0 ref := by
    cases hgl : refgenIdx gen0 ref with
    | nil => exact absurd hgl hr
    | cons a t => rw [List.getD_cons_zero]; exact List.mem_cons_self a t
  have h1 : (refgenIdx gen0 ref).getD 0 0 < (onIdx gen0).length :=
    (mem_busGens.mp h0).1
  exact mem_onIdx.mp (onIdx_getD_mem h1)

/-- C5: for every bus index i, pfsoln overwrites the bus's voltage magnitude
with the absolute value of V i (modelled by the abstract numpy abs function
npAbs) and its voltage angle with the phase of V i (modelled by the abstract
two-argument-arctangent numpy angle function npAngle) scaled by 180 / pi,
for every input voltage vector; the loads and all remaining bus columns are
untouched, so this step writes only the two voltage fields of the bus
table. -/
theorem busVoltage_update
    (baseMVA : ℚ) (bus : List Bus) (gen0 : List Gen) (branch0 : List Branch)
    (Ybus Yf Yt : ℕ → ℕ → CQ) (V : List CQ) (ref : ℕ) (npAbs npAngle : CQ → ℚ)
    (pv pq : List ℕ) (i : ℕ)
    (b' : List Bus) (g' : List Gen) (br' : List Branch)
    (h : pfsoln baseMVA bus gen0 branch0 Ybus Yf Yt V ref npAbs npAngle pv pq =
      Except.ok (b', g', br'))
    (hi : i < bus.length) :
    b'.length = bus.length ∧
      (b'.getD i default).vm = npAbs (V.getD i 0) ∧
      (b'.getD i default).va = npAngle (V.getD i 0) * 180 / NP_PI ∧
      (b'.getD i default).pd = (bus.getD i default).pd ∧
      (b'.getD i default).qd = (bus.getD i default).qd ∧
      (b'.getD i default).rest = (bus.getD i default).rest := by
  obtain ⟨-, hout⟩ :=
    pfsoln_ok_elim baseMVA bus gen0 branch0 Ybus Yf Yt V ref npAbs npAngle h
  rw [Prod.mk.injEq, Prod.mk.injEq] at hout
  obtain ⟨hb, hg, hbr⟩ := hout
  subst hb
  refine ⟨updateBusV_length bus V npAbs npAngle, ?_, ?_, ?_, ?_, ?_⟩ <;>
    rw [updateBusV_getD bus V npAbs npAngle default hi]

/-- Witness for busVoltage_update at the concrete input busA genA branchA. -/
theorem busVoltage_update_witness :
    (pfsoln 2 busA genA branchA YbusA YfA YtA VA2 0 npAbsA npAngleA [] [] =
      Except.ok (busOutA, genOutA, branchOutA)) ∧
    0 < busA.length ∧
    (busOutA.length = busA.length ∧
      (busOutA.getD 0 default).vm = npAbsA (VA2.getD 0 0) ∧
      (busOutA.getD 0 default).va = npAngleA (VA2.getD 0 0) * 180 / NP_PI ∧
      (busOutA.getD 0 default).pd = (busA.getD 0 default).pd ∧
      (busOutA.getD 0 default).qd = (busA.getD 0 default).qd ∧
      (busOutA.getD 0 default).rest = (busA.getD 0 default).rest) :=
  ⟨pfsolnA_eval, by norm_num [busA],
    busVoltage_update 2 busA genA branchA YbusA YfA YtA VA2 0 npAbsA npAngleA [] [] 0
      busOutA genOutA branchOutA pfsolnA_eval (by norm_num [busA])⟩

/-- C6: for every in-service branch j (BR_STATUS nonzero), pfsoln writes the
from-end flow fields PF, QF with the real and imaginary parts of
V_from * conj(Yf_row . V) * baseMVA and the to-end flow fields PT, QT with
the real and imaginary parts of V_to * conj(Yt_row . V) * baseMVA, where the
endpoint buses are the branch's F_BUS and T_BUS entries. -/
theorem branchFlow_update
    (baseMVA : ℚ) (bus : List Bus) (gen0 : List Gen) (branch0 : List Branch)
    (Ybus Yf Yt : ℕ → ℕ → CQ) (V : List CQ) (ref : ℕ) (npAbs npAngle : CQ → ℚ)
    (pv pq : List ℕ) (j : ℕ)
    (b' : List Bus) (g' : List Gen) (br' : List Branch)
    (h : pfsoln baseMVA bus gen0 branch0 Ybus Yf Yt V ref npAbs npAngle pv pq =
      Except.ok (b', g', br'))
    (hj : j < branch0.length)
    (hst : (branch0.getD j default).status ≠ 0) :
    (br'.getD j default).pf =
        (CQ.smul baseMVA (V.getD (branch0.getD j default).fbus 0 *
          CQ.conj (((List.range V.length).map
            fun j2 => Yf j j2 * V.getD j2 0).sum))).re ∧
      (br'.getD j default).qf =
        (CQ.smul baseMVA (V.getD (branch0.getD j default).fbus 0 *
          CQ.conj (((List.range V.length).map
            fun j2 => Yf j j2 * V.getD j2 0).sum))).im ∧
      (br'.getD j default).pt =
        (CQ.smul baseMVA (V.getD (branch0.getD j default).tbus 0 *
          CQ.conj (((List.range V.length).map
            fun j2 => Yt j j2 * V.getD j2 0).sum))).re ∧
      (br'.getD j default).qt =
        (CQ.smul baseMVA (V.getD (branch0.getD j default).tbus 0 *
          CQ.conj (((List.range V.length).map
            fun j2 => Yt j j2 * V.getD j2 0).sum))).im := by
  obtain ⟨-, hout⟩ :=
    pfsoln_ok_elim baseMVA bus gen0 branch0 Ybus Yf Yt V ref npAbs npAngle h
  rw [Prod.mk.injEq, Prod.mk.injEq] at hout
  obtain ⟨hb, hg, hbr⟩ := hout
  subst hbr
  rw [updateBranch_getD baseMVA branch0 Yf Yt V default hj, if_pos hst]
  exact ⟨rfl, rfl, rfl, rfl⟩

/-- Witness for branchFlow_update at the concrete input, branch 0. -/
theorem branchFlow_update_witness :
    (pfsoln 2 busA genA branchA YbusA YfA YtA VA2 0 npAbsA npAngleA [] [] =
      Except.ok (busOutA, genOutA, branchOutA)) ∧
    0 < branchA.length ∧ (branchA.getD 0 default).status ≠ 0 ∧
    ((branchOutA.getD 0 default).pf =
        (CQ.smul 2 (VA2.getD (branchA.getD 0 default).fbus 0 *
          CQ.conj (((List.range VA2.length).map
            fun j2 => YfA 0 j2 * VA2.getD j2 0).sum))).re ∧
      (branchOutA.getD 0 default).qf =
        (CQ.smul 2 (VA2.getD (branchA.getD 0 default).fbus 0 *
          CQ.conj (((List.range VA2.length).map
            fun j2 => YfA 0 j2 * VA2.getD j2 0).sum))).im ∧
      (branchOutA.getD 0 default).pt =
        (CQ.smul 2 (VA2.getD (branchA.getD 0 default).tbus 0 *
          CQ.conj (((List.range VA2.length).map
            fun j2 => YtA 0 j2 * VA2.getD j2 0).sum))).re ∧
      (branchOutA.getD 0 default).qt =
        (CQ.smul 2 (VA2.getD (branchA.getD 0 default).tbus 0 *
          CQ.conj (((List.range VA2.length).map
            fun j2 => YtA 0 j2 * VA2.getD j2 0).sum))).im) :=
  ⟨pfsolnA_eval, by norm_num [branchA], by norm_num [branchA, List.getD],
    branchFlow_update 2 busA genA branchA YbusA YfA YtA VA2 0 npAbsA npAngleA [] [] 0
      busOutA genOutA branchOutA pfsolnA_eval (by norm_num [branchA])
      (by norm_num [branchA, List.getD])⟩

/-- C7: after pfsoln returns, every off-line generator (GEN_STATUS at most
zero) has reactive output zero and real output unchanged from the input, and
every out-of-service branch (BR_STATUS zero) has all four flow fields zero
regardless of their stale input values; off-line generators therefore never
receive a share of a bus's net injection. -/
theorem offline_zeroed
    (baseMVA : ℚ) (bus : List Bus) (gen0 : List Gen) (branch0 : List Branch)
    (Ybus Yf Yt : ℕ → ℕ → CQ) (V : List CQ) (ref : ℕ) (npAbs npAngle : CQ → ℚ)
    (pv pq : List ℕ)
    (b' : List Bus) (g' : List Gen) (br' : List Branch)
    (h : pfsoln baseMVA bus gen0 branch0 Ybus Yf Yt V ref npAbs npAngle pv pq =
      Except.ok (b', g', br')) :
    (∀ i, i < gen0.length → (gen0.getD i default).status ≤ 0 →
      (g'.getD i default).qg = 0 ∧
        (g'.getD i default).pg = (gen0.getD i default).pg) ∧
    (∀ j, j < branch0.length → (branch0.getD j default).status = 0 →
      (br'.getD j default).pf = 0 ∧ (br'.getD j default).qf = 0 ∧
        (br'.getD j default).pt = 0 ∧ (br'.getD j default).qt = 0) := by
  obtain ⟨hr, hout⟩ :=
    pfsoln_ok_elim baseMVA bus gen0 branch0 Ybus Yf Yt V ref npAbs npAngle h
  rw [Prod.mk.injEq, Prod.mk.injEq] at hout
  obtain ⟨hb, hg, hbr⟩ := hout
  subst hg; subst hbr
  constructor
  · intro i hi hoff
    have hql := updateQg_length baseMVA (updateBusV bus V npAbs npAngle) gen0 Ybus V
    have hi2 : i < (updateQg baseMVA (updateBusV bus V npAbs npAngle) gen0 Ybus V).length := by
      rw [hql]; exact hi
    have hns : ¬ 0 < (gen0.getD i default).status := not_lt.mpr hoff
    have hanch := anchor_mem gen0 ref hr
    have hne : i ≠ anchorAbs gen0 ref := by
      intro hcon
      rw [hcon] at hns
      exact hns hanch.2
    constructor
    · rw [updatePg_qg baseMVA (updateBusV bus V npAbs npAngle) gen0 Ybus V ref _
          default hi2,
        updateQg_qg_off baseMVA (updateBusV bus V npAbs npAngle) gen0 Ybus V default hi hns]
    · rw [updatePg_pg_other baseMVA (updateBusV bus V npAbs npAngle) gen0 Ybus V ref _
          default hi2 hne,
        updateQg_pg baseMVA (updateBusV bus V npAbs npAngle) gen0 Ybus V default hi]
  · intro j hj hoff
    rw [updateBranch_out baseMVA branch0 Yf Yt V default hj hoff]
    exact ⟨rfl, rfl, rfl, rfl⟩

/-- Witness for offline_zeroed at the concrete input: generator 1 is
off-line and branch 1 is out of service. -/
theorem offline_zeroed_witness :
    (pfsoln 2 busA genA branchA YbusA YfA YtA VA2 0 npAbsA npAngleA [] [] =
      Except.ok (busOutA, genOutA, branchOutA)) ∧
    ((∀ i, i < genA.length → (genA.getD i default).status ≤ 0 →
      (genOutA.getD i default).qg = 0 ∧
        (genOutA.getD i default).pg = (genA.getD i default).pg) ∧
    (∀ j, j < branchA.length → (branchA.getD j default).status = 0 →
      (branchOutA.getD j default).pf = 0 ∧ (branchOutA.getD j default).qf = 0 ∧
        (branchOutA.getD j default).pt = 0 ∧ (branchOutA.getD j default).qt = 0)) :=
  ⟨pfsolnA_eval,
    offline_zeroed 2 busA genA branchA YbusA YfA YtA VA2 0 npAbsA npAngleA [] []
      busOutA genOutA branchOutA pfsolnA_eval⟩

/-- C10: pfsoln modifies only the bus table's VM and VA columns, the
generator table's QG column together with the PG entry of the anchor (first
on-line reference-bus) generator, and the branch table's PF, QF, PT, QT
columns; the table lengths, the loads PD and QD, the generator columns
GEN_BUS, GEN_STATUS, QMIN, QMAX, the non-anchor PG entries, the branch
columns F_BUS, T_BUS, BR_STATUS, and every remaining column (the rest
fields) are unchanged. -/
theorem frame_effect
    (baseMVA : ℚ) (bus : List Bus) (gen0 : List Gen) (branch0 : List Branch)
    (Ybus Yf Yt : ℕ → ℕ → CQ) (V : List CQ) (ref : ℕ) (npAbs npAngle : CQ → ℚ)
    (pv pq : List ℕ)
    (b' : List Bus) (g' : List Gen) (br' : List Branch)
    (h : pfsoln baseMVA bus gen0 branch0 Ybus Yf Yt V ref npAbs npAngle pv pq =
      Except.ok (b', g', br')) :
    b'.length = bus.length ∧ g'.length = gen0.length ∧ br'.length = branch0.length ∧
    (∀ i, i < bus.length →
      (b'.getD i default).pd = (bus.getD i default).pd ∧
        (b'.getD i default).qd = (bus.getD i default).qd ∧
        (b'.getD i default).rest = (bus.getD i default).rest) ∧
    (∀ i, i < gen0.length →
      (g'.getD i default).bus = (gen0.getD i default).bus ∧
        (g'.getD i default).status = (gen0.getD i default).status ∧
        (g'.getD i default).qmin = (gen0.getD i default).qmin ∧
        (g'.getD i default).qmax = (gen0.getD i default).qmax ∧
        (g'.getD i default).rest = (gen0.getD i default).rest ∧
        (i ≠ anchorAbs gen0 ref →
          (g'.getD i default).pg = (gen0.getD i default).pg)) ∧
    (∀ j, j < branch0.length →
      (br'.getD j default).fbus = (branch0.getD j default).fbus ∧
        (br'.getD j default).tbus = (branch0.getD j default).tbus ∧
        (br'.getD j default).status = (branch0.getD j default).status ∧
        (br'.getD j default).rest = (branch0.getD j default).rest) := by
  obtain ⟨hr, hout⟩ :=
    pfsoln_ok_elim baseMVA bus gen0 branch0 Ybus Yf Yt V ref npAbs npAngle h
  rw [Prod.mk.injEq, Prod.mk.injEq] at hout
  obtain ⟨hb, hg, hbr⟩ := hout
  subst hb; subst hg; subst hbr
  have hql := updateQg_length baseMVA (updateBusV bus V npAbs npAngle) gen0 Ybus V
  refine ⟨updateBusV_length bus V npAbs npAngle, ?_, updateBranch_length baseMVA branch0 Yf Yt V,
    ?_, ?_, ?_⟩
  · rw [updatePg_length, hql]
  · intro i hi
    rw [updateBusV_getD bus V npAbs npAngle default hi]
    exact ⟨rfl, rfl, rfl⟩
  · intro i hi
    have hi2 : i < (updateQg baseMVA (updateBusV bus V npAbs npAngle) gen0 Ybus V).length := by
      rw [hql]; exact hi
    refine ⟨?_, ?_, ?_, ?_, ?_, ?_⟩
    · rw [updatePg_bus baseMVA (updateBusV bus V npAbs npAngle) gen0 Ybus V ref _
          default hi2,
        updateQg_bus baseMVA (updateBusV bus V npAbs npAngle) gen0 Ybus V default hi]
    · rw [updatePg_status baseMVA (updateBusV bus V npAbs npAngle) gen0 Ybus V ref _
          default hi2,
        updateQg_status baseMVA (updateBusV bus V npAbs npAngle) gen0 Ybus V default hi]
    · rw [updatePg_qmin baseMVA (updateBusV bus V npAbs npAngle) gen0 Ybus V ref _
          default hi2,
        updateQg_qmin baseMVA (updateBusV bus V npAbs npAngle) gen0 Ybus V default hi]
    · rw [updatePg_qmax baseMVA (updateBusV bus V npAbs npAngle) gen0 Ybus V ref _
          default hi2,
        updateQg_qmax baseMVA (updateBusV bus V npAbs npAngle) gen0 Ybus V default hi]
    · rw [updatePg_rest baseMVA (updateBusV bus V npAbs npAngle) gen0 Ybus V ref _
          default hi2,
        updateQg_rest baseMVA (updateBusV bus V npAbs npAngle) gen0 Ybus V default hi]
    · intro hne
      rw [updatePg_pg_other baseMVA (updateBusV bus V npAbs npAngle) gen0 Ybus V ref _
          default hi2 hne,
        updateQg_pg baseMVA (updateBusV bus V npAbs npAngle) gen0 Ybus V default hi]
  · intro j hj
    exact updateBranch_keeps baseMVA branch0 Yf Yt V default hj

/-- Witness for frame_effect at the concrete input busA genA branchA. -/
theorem frame_effect_witness :
    (pfsoln 2 busA genA branchA YbusA YfA YtA VA2 0 npAbsA npAngleA [] [] =
      Except.ok (busOutA, genOutA, branchOutA)) ∧
    (busOutA.length = busA.length ∧ genOutA.length = genA.length ∧
      branchOutA.length = branchA.length ∧
    (∀ i, i < busA.length →
      (busOutA.getD i default).pd = (busA.getD i default).pd ∧
        (busOutA.getD i default).qd = (busA.getD i default).qd ∧
        (busOutA.getD i default).rest = (busA.getD i default).rest) ∧
    (∀ i, i < genA.length →
      (genOutA.getD i default).bus = (genA.getD i default).bus ∧
        (genOutA.getD i default).status = (genA.getD i default).status ∧
        (genOutA.getD i default).qmin = (genA.getD i default).qmin ∧
        (genOutA.getD i default).qmax = (genA.getD i default).qmax ∧
        (genOutA.getD i default).rest = (genA.getD i default).rest ∧
        (i ≠ anchorAbs genA 0 →
          (genOutA.getD i default).pg = (genA.getD i default).pg)) ∧
    (∀ j, j < branchA.length →
      (branchOutA.getD j default).fbus = (branchA.getD j default).fbus ∧
        (branchOutA.getD j default).tbus = (branchA.getD j default).tbus ∧
        (branchOutA.getD j default).status = (branchA.getD j default).status ∧
        (branchOutA.getD j default).rest = (branchA.getD j default).rest)) :=
  ⟨pfsolnA_eval,
    frame_effect 2 busA genA branchA YbusA YfA YtA VA2 0 npAbsA npAngleA [] []
      busOutA genOutA branchOutA pfsolnA_eval⟩

theorem busGens_nodup (gen0 : List Gen) (b : ℕ) : (busGens gen0 b).Nodup :=
  (List.nodup_range _).filter _

theorem refgen_head_mem (gen0 : List Gen) (ref : ℕ) (hr : refgenIdx gen0 ref ≠ []) :
    (refgenIdx gen0 ref).getD 0 0 ∈ refgenIdx gen0 ref := by
  cases hgl : refgenIdx gen0 ref with
  | nil => exact absurd hgl hr
  | cons a t => rw [List.getD_cons_zero]; exact List.mem_cons_self a t

/-- C3: pfsoln sets the real output of the anchor (first on-line
reference-bus) generator to the real part of the reference bus's net
injection scaled by baseMVA plus the bus's local real load, minus the sum
of the real outputs already recorded for the other on-line reference-bus
generators (an empty sum when there is only one); consequently the total
real output of the on-line generators at the reference bus equals the
bus's net injected real power plus its local real load, exactly. -/
theorem refPg_total
    (baseMVA : ℚ) (bus : List Bus) (gen0 : List Gen) (branch0 : List Branch)
    (Ybus Yf Yt : ℕ → ℕ → CQ) (V : List CQ) (ref : ℕ) (npAbs npAngle : CQ → ℚ)
    (pv pq : List ℕ)
    (b' : List Bus) (g' : List Gen) (br' : List Branch)
    (h : pfsoln baseMVA bus gen0 branch0 Ybus Yf Yt V ref npAbs npAngle pv pq =
      Except.ok (b', g', br')) :
    (g'.getD (anchorAbs gen0 ref) default).pg =
        (SgBus Ybus V ref).re * baseMVA + (bus.getD ref default).pd -
          (((refgenIdx gen0 ref).drop 1).map fun r =>
            (gen0.getD ((onIdx gen0).getD r 0) default).pg).sum ∧
      onlinePgSumAtBus g' ref =
        (SgBus Ybus V ref).re * baseMVA + (bus.getD ref default).pd := by
  obtain ⟨hr, hout⟩ :=
    pfsoln_ok_elim baseMVA bus gen0 branch0 Ybus Yf Yt V ref npAbs npAngle h
  rw [Prod.mk.injEq, Prod.mk.injEq] at hout
  obtain ⟨hb, hg, hbr⟩ := hout
  subst hg
  have hql := updateQg_length baseMVA (updateBusV bus V npAbs npAngle) gen0 Ybus V
  have hanch := anchor_mem gen0 ref hr
  have hanchlt : anchorAbs gen0 ref <
      (updateQg baseMVA (updateBusV bus V npAbs npAngle) gen0 Ybus V).length := by
    rw [hql]; exact hanch.1
  have h0 : (refgenIdx gen0 ref).getD 0 0 ∈ refgenIdx gen0 ref :=
    refgen_head_mem gen0 ref hr
  have hr0lt : (refgenIdx gen0 ref).getD 0 0 < (onIdx gen0).length :=
    (mem_busGens.mp h0).1
  have hgb : gbusAt gen0 ((refgenIdx gen0 ref).getD 0 0) = ref := (mem_busGens.mp h0).2
  have hothers : (((refgenIdx gen0 ref).drop 1).map fun r =>
      ((updateQg baseMVA (updateBusV bus V npAbs npAngle) gen0 Ybus V).getD
        ((onIdx gen0).getD r 0) default).pg) =
      ((refgenIdx gen0 ref).drop 1).map fun r =>
        (gen0.getD ((onIdx gen0).getD r 0) default).pg := by
    apply List.map_eq_map_iff.mpr
    intro r hrmem
    have hrm : r ∈ refgenIdx gen0 ref := List.mem_of_mem_drop hrmem
    have hrlt : r < (onIdx gen0).length := (mem_busGens.mp hrm).1
    have habs := mem_onIdx.mp (onIdx_getD_mem hrlt)
    exact updateQg_pg baseMVA (updateBusV bus V npAbs npAngle) gen0 Ybus V default habs.1
  have hpgA : pgAnchor baseMVA (updateBusV bus V npAbs npAngle) gen0 Ybus V ref
      (updateQg baseMVA (updateBusV bus V npAbs npAngle) gen0 Ybus V) =
      (SgBus Ybus V ref).re * baseMVA + (bus.getD ref default).pd -
        (((refgenIdx gen0 ref).drop 1).map fun r =>
          (gen0.getD ((onIdx gen0).getD r 0) default).pg).sum := by
    rw [pgAnchor, hgb, hothers, updateBusV_pd]
  constructor
  · rw [updatePg_pg_anchor baseMVA (updateBusV bus V npAbs npAngle) gen0 Ybus V ref _
      default hanchlt, hpgA]
  · have hlen : (updatePg baseMVA (updateBusV bus V npAbs npAngle) gen0 Ybus V ref
        (updateQg baseMVA (updateBusV bus V npAbs npAngle) gen0 Ybus V)).length =
        gen0.length := by
      rw [updatePg_length, hql]
    have hstat : ∀ i, i < gen0.length →
        ((updatePg baseMVA (updateBusV bus V npAbs npAngle) gen0 Ybus V ref
          (updateQg baseMVA (updateBusV bus V npAbs npAngle) gen0 Ybus V)).getD i
            default).status = (gen0.getD i default).status := by
      intro i hi
      rw [updatePg_status baseMVA (updateBusV bus V npAbs npAngle) gen0 Ybus V ref _
          default (by rw [hql]; exact hi),
        updateQg_status baseMVA (updateBusV bus V npAbs npAngle) gen0 Ybus V default hi]
    have hbusf : ∀ i, i < gen0.length →
        ((updatePg baseMVA (updateBusV bus V npAbs npAngle) gen0 Ybus V ref
          (updateQg baseMVA (updateBusV bus V npAbs npAngle) gen0 Ybus V)).getD i
            default).bus = (gen0.getD i default).bus := by
      intro i hi
      rw [updatePg_bus baseMVA (updateBusV bus V npAbs npAngle) gen0 Ybus V ref _
          default (by rw [hql]; exact hi),
        updateQg_bus baseMVA (updateBusV bus V npAbs npAngle) gen0 Ybus V default hi]
    rw [onlinePgSumAtBus, onlineSum_over _ gen0 _ ref hlen hstat hbusf]
    cases hgl : refgenIdx gen0 ref with
    | nil => exact absurd hgl hr
    | cons r0 rs =>
      have hbusG : busGens gen0 ref = r0 :: rs := hgl
      rw [hbusG, List.map_cons, List.sum_cons]
      have hanchEq : (onIdx gen0).getD r0 0 = anchorAbs gen0 ref := by
        rw [anchorAbs, hgl, List.getD_cons_zero]
      have hr0lt' : r0 < (onIdx gen0).length := by
        rw [hgl, List.getD_cons_zero] at hr0lt
        exact hr0lt
      rw [hanchEq, updatePg_pg_anchor baseMVA (updateBusV bus V npAbs npAngle) gen0
        Ybus V ref _ default hanchlt, hpgA]
      have hrsmap : (rs.map fun k =>
          ((updatePg baseMVA (updateBusV bus V npAbs npAngle) gen0 Ybus V ref
            (updateQg baseMVA (updateBusV bus V npAbs npAngle) gen0 Ybus V)).getD
              ((onIdx gen0).getD k 0) default).pg) =
          rs.map fun k => (gen0.getD ((onIdx gen0).getD k 0) default).pg := by
        apply List.map_eq_map_iff.mpr
        intro k hk
        have hkR : k ∈ refgenIdx gen0 ref := by
          rw [hgl]; exact List.mem_cons_of_mem r0 hk
        have hklt : k < (onIdx gen0).length := (mem_busGens.mp hkR).1
        have hkabs := mem_onIdx.mp (onIdx_getD_mem hklt)
        have hkneR0 : k ≠ r0 := by
          have hnd : (refgenIdx gen0 ref).Nodup := busGens_nodup gen0 ref
          rw [hgl, List.nodup_cons] at hnd
          intro he
          rw [he] at hk
          exact hnd.1 hk
        have hner : (onIdx gen0).getD k 0 ≠ anchorAbs gen0 ref := by
          rw [anchorAbs, hgl, List.getD_cons_zero]
          intro he
          have hpk := posIn_getD (onIdx_nodup gen0) hklt
          rw [he, posIn_getD (onIdx_nodup gen0) hr0lt'] at hpk
          exact hkneR0 hpk.symm
        rw [updatePg_pg_other baseMVA (updateBusV bus V npAbs npAngle) gen0 Ybus V ref _
            default (by rw [hql]; exact hkabs.1) hner,
          updateQg_pg baseMVA (updateBusV bus V npAbs npAngle) gen0 Ybus V default hkabs.1]
      rw [hrsmap, hgl]
      have hdrop : (r0 :: rs).drop 1 = rs := rfl
      rw [hdrop]
      ring

/-- Witness for refPg_total at the concrete input busA genA branchA. -/
theorem refPg_total_witness :
    (pfsoln 2 busA genA branchA YbusA YfA YtA VA2 0 npAbsA npAngleA [] [] =
      Except.ok (busOutA, genOutA, branchOutA)) ∧
    ((genOutA.getD (anchorAbs genA 0) default).pg =
        (SgBus YbusA VA2 0).re * 2 + (busA.getD 0 default).pd -
          (((refgenIdx genA 0).drop 1).map fun r =>
            (genA.getD ((onIdx genA).getD r 0) default).pg).sum ∧
      onlinePgSumAtBus genOutA 0 =
        (SgBus YbusA VA2 0).re * 2 + (busA.getD 0 default).pd) :=
  ⟨pfsolnA_eval,
    refPg_total 2 busA genA branchA YbusA YfA YtA VA2 0 npAbsA npAngleA [] []
      busOutA genOutA branchOutA pfsolnA_eval⟩

theorem pfsolnB_eval : pfsoln 1 busB genB branchB YbusB YfB YtB VB 0 npAbsB npAngleB [] [] =
    Except.ok (busOutB, genOutB, branchB) := by
  norm_num [pfsoln, updateBusV, updateQg, updatePg, updateBranch, tabulate, onIdx,
    genOn, gbusAt, busGens, refgenIdx, SgBus, qgInj, nggAt, qgEqAt, Qg_tot, Qg_min,
    Qg_max, qgPropAt, qgAt, anchorAbs, pgAnchor, posIn, CQ.conj, CQ.smul, EPS,
    NP_PI, busB, genB, branchB, YbusB, YfB, YtB, VB, npAbsB, npAngleB,
    busOutB, genOutB, List.range_succ, List.getD]
  intro hcon
  exact absurd hcon (List.cons_ne_nil _ _)

theorem pfsolnC_eval : pfsoln 1 busB genC branchB YbusB YfB YtB VB 0 npAbsB npAngleB [] [] =
    Except.ok (busOutB, genOutC, branchB) := by
  norm_num [pfsoln, updateBusV, updateQg, updatePg, updateBranch, tabulate, onIdx,
    genOn, gbusAt, busGens, refgenIdx, SgBus, qgInj, nggAt, qgEqAt, Qg_tot, Qg_min,
    Qg_max, qgPropAt, qgAt, anchorAbs, pgAnchor, posIn, CQ.conj, CQ.smul, EPS,
    NP_PI, busB, genC, branchB, YbusB, YfB, YtB, VB, npAbsB, npAngleB,
    busOutB, genOutC, List.range_succ, List.getD]
  intro hcon
  exact absurd hcon (List.cons_ne_nil _ _)

theorem pfsolnD_eval : pfsoln 1 busB genD branchB YbusB YfB YtB VB 0 npAbsB npAngleB [] [] =
    Except.ok (busOutB, genOutD, branchB) := by
  norm_num [pfsoln, updateBusV, updateQg, updatePg, updateBranch, tabulate, onIdx,
    genOn, gbusAt, busGens, refgenIdx, SgBus, qgInj, nggAt, qgEqAt, Qg_tot, Qg_min,
    Qg_max, qgPropAt, qgAt, anchorAbs, pgAnchor, posIn, CQ.conj, CQ.smul, EPS,
    NP_PI, busB, genD, branchB, YbusB, YfB, YtB, VB, npAbsB, npAngleB,
    busOutB, genOutD, List.range_succ, List.getD]
  intro hcon
  exact absurd hcon (List.cons_ne_nil _ _)

/-- C2 counterexample: at the concrete input genB, two on-line generators
share bus 0, bus total 20; the first generator has the zero-width range
[5, 5] and its equal-split value is 10, but pfsoln leaves it with reactive
output 5 (its QMIN), not its equal-split value, refuting the claim that a
generator with an individually zero-width range keeps its equal-split
value. -/
theorem zeroWidth_counterexample :
    (pfsoln 1 busB genB branchB YbusB YfB YtB VB 0 npAbsB npAngleB [] [] =
      Except.ok (busOutB, genOutB, branchB)) ∧
      (genOutB.getD 0 default).qg = 5 ∧
      qgEqAt 1 busB genB YbusB VB 0 = 10 ∧ (5 : ℚ) ≠ 10 := by
  refine ⟨pfsolnB_eval, by norm_num [genOutB, List.getD], ?_, by norm_num⟩
  norm_num [qgEqAt, qgInj, nggAt, busGens, gbusAt, genOn, onIdx, SgBus, busB, genB,
    YbusB, VB, List.range_succ, List.getD]

/-- C2 amended: in the proportional re-split (run only when more than one
generator is on-line), exclusion is keyed on the bus's aggregate range, not
on the generator's own: an on-line generator whose own range has zero width
at a bus whose aggregate minimum differs from its aggregate maximum is fed
through the proportional formula and receives QG = QMIN (= QMAX), not its
equal-split value, while its co-located generators absorb the remainder of
the bus total; only generators at a bus whose aggregate minimum equals the
aggregate maximum are excluded and keep their equal-split value. -/
theorem zeroWidth_amended
    (baseMVA : ℚ) (bus : List Bus) (gen0 : List Gen) (branch0 : List Branch)
    (Ybus Yf Yt : ℕ → ℕ → CQ) (V : List CQ) (ref : ℕ) (npAbs npAngle : CQ → ℚ)
    (pv pq : List ℕ) (k : ℕ)
    (b' : List Bus) (g' : List Gen) (br' : List Branch)
    (h : pfsoln baseMVA bus gen0 branch0 Ybus Yf Yt V ref npAbs npAngle pv pq =
      Except.ok (b', g', br'))
    (hk : k < (onIdx gen0).length)
    (hsplit : 1 < (onIdx gen0).length) :
    ((genOn gen0 k).qmin = (genOn gen0 k).qmax →
      Qg_min gen0 (gbusAt gen0 k) ≠ Qg_max gen0 (gbusAt gen0 k) →
      (g'.getD ((onIdx gen0).getD k 0) default).qg = (genOn gen0 k).qmin) ∧
    (Qg_min gen0 (gbusAt gen0 k) = Qg_max gen0 (gbusAt gen0 k) →
      (g'.getD ((onIdx gen0).getD k 0) default).qg =
        qgEqAt baseMVA bus gen0 Ybus V k) := by
  obtain ⟨hr, hout⟩ :=
    pfsoln_ok_elim baseMVA bus gen0 branch0 Ybus Yf Yt V ref npAbs npAngle h
  rw [Prod.mk.injEq, Prod.mk.injEq] at hout
  obtain ⟨hb, hg, hbr⟩ := hout
  subst hg
  obtain ⟨hlt, hpos⟩ := mem_onIdx.mp (onIdx_getD_mem hk)
  have hq : ((updatePg baseMVA (updateBusV bus V npAbs npAngle) gen0 Ybus V ref
      (updateQg baseMVA (updateBusV bus V npAbs npAngle) gen0 Ybus V)).getD
        ((onIdx gen0).getD k 0) default).qg = qgAt baseMVA bus gen0 Ybus V k := by
    rw [updatePg_qg baseMVA (updateBusV bus V npAbs npAngle) gen0 Ybus V ref _
        default (by rw [updateQg_length]; exact hlt),
      updateQg_qg_on baseMVA (updateBusV bus V npAbs npAngle) gen0 Ybus V default hlt hpos,
      posIn_getD (onIdx_nodup gen0) hk,
      qgAt_updateBusV baseMVA bus gen0 Ybus V npAbs npAngle]
  rw [hq, qgAt, if_neg (not_le.mpr hsplit)]
  constructor
  · intro hzw hbusneq
    rw [qgPropAt, if_neg hbusneq, hzw]
    ring
  · intro hbuseq
    rw [qgPropAt, if_pos hbuseq]

/-- Witness for zeroWidth_amended at the concrete input genB, generator 0. -/
theorem zeroWidth_amended_witness :
    (pfsoln 1 busB genB branchB YbusB YfB YtB VB 0 npAbsB npAngleB [] [] =
      Except.ok (busOutB, genOutB, branchB)) ∧
    0 < (onIdx genB).length ∧ 1 < (onIdx genB).length ∧
    (((genOn genB 0).qmin = (genOn genB 0).qmax →
      Qg_min genB (gbusAt genB 0) ≠ Qg_max genB (gbusAt genB 0) →
      (genOutB.getD ((onIdx genB).getD 0 0) default).qg = (genOn genB 0).qmin) ∧
    (Qg_min genB (gbusAt genB 0) = Qg_max genB (gbusAt genB 0) →
      (genOutB.getD ((onIdx genB).getD 0 0) default).qg =
        qgEqAt 1 busB genB YbusB VB 0)) :=
  ⟨pfsolnB_eval,
    by norm_num [onIdx, genB, List.range_succ, List.getD],
    by norm_num [onIdx, genB, List.range_succ, List.getD],
    zeroWidth_amended 1 busB genB branchB YbusB YfB YtB VB 0 npAbsB npAngleB [] [] 0
      busOutB genOutB branchB pfsolnB_eval
      (by norm_num [onIdx, genB, List.range_succ, List.getD])
      (by norm_num [onIdx, genB, List.range_succ, List.getD])⟩

/-- C8 counterexample: at the concrete input genC (ranges [0, 10] and
[0, 30], bus total 20), the proportional re-split gives the first generator
200 / (40 + EPS), which is not exactly 5: in the exact arithmetic of the
source's formula the EPS guard shifts the result below 5 (binary64 rounding
absorbs the shift, which is below one ulp). -/
theorem propSplit_counterexample :
    (pfsoln 1 busB genC branchB YbusB YfB YtB VB 0 npAbsB npAngleB [] [] =
      Except.ok (busOutB, genOutC, branchB)) ∧
      (genOutC.getD 0 default).qg = 200 / (40 + EPS) ∧
      200 / (40 + EPS) ≠ (5 : ℚ) :=
  ⟨pfsolnC_eval, by norm_num [genOutC, List.getD], by norm_num [EPS]⟩

/-- C8 amended: with ranges [0, 10] and [0, 30] and bus total 20 the equal
split assigns 10 and 10 exactly, and the proportional re-split assigns
200 / (40 + EPS) and 600 / (40 + EPS): within 5 * EPS and 15 * EPS of the
claim's 5 and 15 (exactly 5 and 15 when binary64 rounding absorbs the EPS
guard); with identical ranges [0, 10] and [0, 10] the two generators end
with equal outputs, each exactly half of the final bus total. -/
theorem propSplit_scenario :
    (qgEqAt 1 busB genC YbusB VB 0 = 10 ∧ qgEqAt 1 busB genC YbusB VB 1 = 10) ∧
    (pfsoln 1 busB genC branchB YbusB YfB YtB VB 0 npAbsB npAngleB [] [] =
      Except.ok (busOutB, genOutC, branchB)) ∧
    (genOutC.getD 0 default).qg = 200 / (40 + EPS) ∧
    (genOutC.getD 1 default).qg = 600 / (40 + EPS) ∧
    |200 / (40 + EPS) - 5| ≤ 5 * EPS ∧ |600 / (40 + EPS) - 15| ≤ 15 * EPS ∧
    (pfsoln 1 busB genD branchB YbusB YfB YtB VB 0 npAbsB npAngleB [] [] =
      Except.ok (busOutB, genOutD, branchB)) ∧
    (genOutD.getD 0 default).qg = (genOutD.getD 1 default).qg ∧
    (genOutD.getD 0 default).qg =
      ((genOutD.getD 0 default).qg + (genOutD.getD 1 default).qg) / 2 := by
  refine ⟨⟨?_, ?_⟩, pfsolnC_eval, by norm_num [genOutC, List.getD],
    by norm_num [genOutC, List.getD], ?_, ?_, pfsolnD_eval,
    by norm_num [genOutD, List.getD], by norm_num [genOutD, List.getD]⟩
  · norm_num [qgEqAt, qgInj, nggAt, busGens, gbusAt, genOn, onIdx, SgBus, busB, genC,
      YbusB, VB, List.range_succ, List.getD]
  · norm_num [qgEqAt, qgInj, nggAt, busGens, gbusAt, genOn, onIdx, SgBus, busB, genC,
      YbusB, VB, List.range_succ, List.getD]
  · rw [abs_le]
    constructor <;> norm_num [EPS]
  · rw [abs_le]
    constructor <;> norm_num [EPS]

/-- C4 counterexample: on a concrete input whose reference bus 0 hosts no
on-line generator (the only generator sits at bus 1), pfsoln fails with the
numpy IndexError raised by refgen[0] on the empty refgen array; it does not
surface the spec's descriptive ConfigurationError. -/
theorem refEmpty_counterexample :
    pfsoln 1 busB genE branchB YbusB YfB YtB VB 0 npAbsB npAngleB [] [] =
      Except.error PfError.indexError ∧
    PfError.indexError ≠ PfError.configurationError := by
  constructor
  · simp only [pfsoln]
    rw [if_pos (by norm_num [refgenIdx, busGens, gbusAt, genOn, onIdx, genE,
      List.range_succ, List.getD])]
  · decide

/-- C4 amended: whenever the reference bus has no on-line generator
(refgenIdx empty), pfsoln fails fast with an IndexError rather than
silently proceeding; the error is the generic index fault of the empty
lookup, not a descriptive configuration error. -/
theorem refEmpty_amended
    (baseMVA : ℚ) (bus : List Bus) (gen0 : List Gen) (branch0 : List Branch)
    (Ybus Yf Yt : ℕ → ℕ → CQ) (V : List CQ) (ref : ℕ) (npAbs npAngle : CQ → ℚ)
    (pv pq : List ℕ)
    (hr : refgenIdx gen0 ref = []) :
    pfsoln baseMVA bus gen0 branch0 Ybus Yf Yt V ref npAbs npAngle pv pq =
      Except.error PfError.indexError := by
  simp only [pfsoln]
  rw [if_pos hr]

/-- Witness for refEmpty_amended at the concrete input genE. -/
theorem refEmpty_amended_witness :
    refgenIdx genE 0 = [] ∧
    pfsoln 1 busB genE branchB YbusB YfB YtB VB 0 npAbsB npAngleB [] [] =
      Except.error PfError.indexError :=
  ⟨by norm_num [refgenIdx, busGens, gbusAt, genOn, onIdx, genE,
      List.range_succ, List.getD],
    refEmpty_amended 1 busB genE branchB YbusB YfB YtB VB 0 npAbsB npAngleB [] []
      (by norm_num [refgenIdx, busGens, gbusAt, genOn, onIdx, genE,
        List.range_succ, List.getD])⟩

theorem Gen.set_qg_self (g : Gen) (x : ℚ) (h : g.qg = x) : ({ g with qg := x } : Gen) = g := by
  cases g
  cases h
  rfl

theorem Gen.set_pg_self (g : Gen) (x : ℚ) (h : g.pg = x) : ({ g with pg := x } : Gen) = g := by
  cases g
  cases h
  rfl

theorem Bus.set_v_self (x : Bus) (a b : ℚ) (hvm : x.vm = a) (hva : x.va = b) :
    ({ x with vm := a, va := b } : Bus) = x := by
  cases x
  cases hvm
  cases hva
  rfl

theorem Branch.set_flows_self (x : Branch) (a c d e : ℚ) (hpf : x.pf = a)
    (hqf : x.qf = c) (hpt : x.pt = d) (hqt : x.qt = e) :
    ({ x with pf := a, qf := c, pt := d, qt := e } : Branch) = x := by
  cases x
  cases hpf
  cases hqf
  cases hpt
  cases hqt
  rfl

section ShapeCongr

variable {g' gen0 : List Gen}

theorem shape_onIdx (hs : GenShapeEq g' gen0) : onIdx g' = onIdx gen0 := by
  rw [onIdx, onIdx, hs.len]
  apply List.filter_congr
  intro i hi
  rw [hs.statusEq i (List.mem_range.mp hi)]

theorem shape_field_bus (hs : GenShapeEq g' gen0) (x : ℕ) :
    (g'.getD x default).bus = (gen0.getD x default).bus := by
  by_cases hx : x < gen0.length
  · exact hs.busEq x hx
  · rw [getD_of_length_le default (by rw [hs.len]; exact le_of_not_lt hx),
      getD_of_length_le default (le_of_not_lt hx)]

theorem shape_field_qmin (hs : GenShapeEq g' gen0) (x : ℕ) :
    (g'.getD x default).qmin = (gen0.getD x default).qmin := by
  by_cases hx : x < gen0.length
  · exact hs.qminEq x hx
  · rw [getD_of_length_le default (by rw [hs.len]; exact le_of_not_lt hx),
      getD_of_length_le default (le_of_not_lt hx)]

theorem shape_field_qmax (hs : GenShapeEq g' gen0) (x : ℕ) :
    (g'.getD x default).qmax = (gen0.getD x default).qmax := by
  by_cases hx : x < gen0.length
  · exact hs.qmaxEq x hx
  · rw [getD_of_length_le default (by rw [hs.len]; exact le_of_not_lt hx),
      getD_of_length_le default (le_of_not_lt hx)]

theorem shape_gbusAt (hs : GenShapeEq g' gen0) (k : ℕ) :
    gbusAt g' k = gbusAt gen0 k := by
  rw [gbusAt, gbusAt, genOn, genOn, shape_onIdx hs]
  exact shape_field_bus hs _

theorem shape_qminOn (hs : GenShapeEq g' gen0) (k : ℕ) :
    (genOn g' k).qmin = (genOn gen0 k).qmin := by
  rw [genOn, genOn, shape_onIdx hs]
  exact shape_field_qmin hs _

theorem shape_qmaxOn (hs : GenShapeEq g' gen0) (k : ℕ) :
    (genOn g' k).qmax = (genOn gen0 k).qmax := by
  rw [genOn, genOn, shape_onIdx hs]
  exact shape_field_qmax hs _

theorem shape_busGens (hs : GenShapeEq g' gen0) (b : ℕ) :
    busGens g' b = busGens gen0 b := by
  rw [busGens, busGens, shape_onIdx hs]
  apply List.filter_congr
  intro k _
  rw [shape_gbusAt hs k]

theorem shape_refgenIdx (hs : GenShapeEq g' gen0) (ref : ℕ) :
    refgenIdx g' ref = refgenIdx gen0 ref := by
  rw [refgenIdx, refgenIdx]
  exact shape_busGens hs ref

theorem shape_nggAt (hs : GenShapeEq g' gen0) (k : ℕ) : nggAt g' k = nggAt gen0 k := by
  rw [nggAt, nggAt, shape_gbusAt hs, shape_busGens hs]

theorem shape_qgInj (hs : GenShapeEq g' gen0) (baseMVA : ℚ) (bus : List Bus)
    (Ybus : ℕ → ℕ → CQ) (V : List CQ) (k : ℕ) :
    qgInj baseMVA bus g' Ybus V k = qgInj baseMVA bus gen0 Ybus V k := by
  rw [qgInj, qgInj, shape_gbusAt hs]

theorem shape_qgEqAt (hs : GenShapeEq g' gen0) (baseMVA : ℚ) (bus : List Bus)
    (Ybus : ℕ → ℕ → CQ) (V : List CQ) (k : ℕ) :
    qgEqAt baseMVA bus g' Ybus V k = qgEqAt baseMVA bus gen0 Ybus V k := by
  rw [qgEqAt, qgEqAt, shape_qgInj hs, shape_nggAt hs]

theorem shape_Qg_tot (hs : GenShapeEq g' gen0) (baseMVA : ℚ) (bus : List Bus)
    (Ybus : ℕ → ℕ → CQ) (V : List CQ) (b : ℕ) :
    Qg_tot baseMVA bus g' Ybus V b = Qg_tot baseMVA bus gen0 Ybus V b := by
  rw [Qg_tot, Qg_tot, shape_busGens hs]
  apply congrArg
  apply List.map_eq_map_iff.mpr
  intro k _
  exact shape_qgEqAt hs baseMVA bus Ybus V k

theorem shape_Qg_min (hs : GenShapeEq g' gen0) (b : ℕ) :
    Qg_min g' b = Qg_min gen0 b := by
  rw [Qg_min, Qg_min, shape_busGens hs]
  apply congrArg
  apply List.map_eq_map_iff.mpr
  intro k _
  exact shape_qminOn hs k

theorem shape_Qg_max (hs : GenShapeEq g' gen0) (b : ℕ) :
    Qg_max g' b = Qg_max gen0 b := by
  rw [Qg_max, Qg_max, shape_busGens hs]
  apply congrArg
  apply List.map_eq_map_iff.mpr
  intro k _
  exact shape_qmaxOn hs k

theorem shape_qgPropAt (hs : GenShapeEq g' gen0) (baseMVA : ℚ) (bus : List Bus)
    (Ybus : ℕ → ℕ → CQ) (V : List CQ) (k : ℕ) :
    qgPropAt baseMVA bus g' Ybus V k = qgPropAt baseMVA bus gen0 Ybus V k := by
  rw [qgPropAt, qgPropAt]
  by_cases hc : Qg_min gen0 (gbusAt gen0 k) = Qg_max gen0 (gbusAt gen0 k)
  · have hc' : Qg_min g' (gbusAt g' k) = Qg_max g' (gbusAt g' k) := by
      rw [shape_gbusAt hs, shape_Qg_min hs, shape_Qg_max hs]
      exact hc
    rw [if_pos hc, if_pos hc', shape_qgEqAt hs]
  · have hc' : ¬ Qg_min g' (gbusAt g' k) = Qg_max g' (gbusAt g' k) := by
      rw [shape_gbusAt hs, shape_Qg_min hs, shape_Qg_max hs]
      exact hc
    rw [if_neg hc, if_neg hc', shape_gbusAt hs, shape_Qg_tot hs, shape_Qg_min hs,
      shape_Qg_max hs, shape_qminOn hs, shape_qmaxOn hs]

theorem shape_qgAt (hs : GenShapeEq g' gen0) (baseMVA : ℚ) (bus : List Bus)
    (Ybus : ℕ → ℕ → CQ) (V : List CQ) (k : ℕ) :
    qgAt baseMVA bus g' Ybus V k = qgAt baseMVA bus gen0 Ybus V k := by
  rw [qgAt, qgAt, shape_onIdx hs]
  by_cases hc : (onIdx gen0).length ≤ 1
  · rw [if_pos hc, if_pos hc, shape_qgInj hs]
  · rw [if_neg hc, if_neg hc, shape_qgPropAt hs]

end ShapeCongr

theorem drop_refgen_ne_anchor (gen0 : List Gen) (ref : ℕ)
    (hr : refgenIdx gen0 ref ≠ []) {r : ℕ} (hrm : r ∈ (refgenIdx gen0 ref).drop 1) :
    (onIdx gen0).getD r 0 ≠ anchorAbs gen0 ref ∧ r ∈ refgenIdx gen0 ref := by
  cases hgl : refgenIdx gen0 ref with
  | nil => exact absurd hgl hr
  | cons a t =>
    rw [hgl] at hrm
    have hrm' : r ∈ t := hrm
    have hnd := busGens_nodup gen0 ref
    rw [refgenIdx] at hgl
    rw [hgl, List.nodup_cons] at hnd
    have hra : r ≠ a := fun he => hnd.1 (he ▸ hrm')
    have hrR : r ∈ refgenIdx gen0 ref := by
      rw [refgenIdx, hgl]
      exact List.mem_cons_of_mem a hrm'
    have hrlt : r < (onIdx gen0).length := (mem_busGens.mp hrR).1
    have halt : a < (onIdx gen0).length := by
      have ham : a ∈ refgenIdx gen0 ref := by
        rw [refgenIdx, hgl]
        exact List.mem_cons_self a t
      exact (mem_busGens.mp ham).1
    refine ⟨?_, List.mem_cons_of_mem a hrm'⟩
    rw [anchorAbs, refgenIdx, hgl, List.getD_cons_zero]
    intro he
    have hp := posIn_getD (onIdx_nodup gen0) hrlt
    rw [he, posIn_getD (onIdx_nodup gen0) halt] at hp
    exact hra hp.symm

/-- C9: pfsoln is idempotent: running it again on its own output tables,
with the same voltage solution, admittance matrices, power base and
reference index, returns exactly the same tables.  Every value pfsoln
writes is computed only from columns it never modifies, so the second run
recomputes identical values. -/
theorem idempotent
    (baseMVA : ℚ) (bus : List Bus) (gen0 : List Gen) (branch0 : List Branch)
    (Ybus Yf Yt : ℕ → ℕ → CQ) (V : List CQ) (ref : ℕ) (npAbs npAngle : CQ → ℚ)
    (pv pq : List ℕ)
    (b' : List Bus) (g' : List Gen) (br' : List Branch)
    (h : pfsoln baseMVA bus gen0 branch0 Ybus Yf Yt V ref npAbs npAngle pv pq =
      Except.ok (b', g', br')) :
    pfsoln baseMVA b' g' br' Ybus Yf Yt V ref npAbs npAngle pv pq =
      Except.ok (b', g', br') := by
  obtain ⟨hr, hout⟩ :=
    pfsoln_ok_elim baseMVA bus gen0 branch0 Ybus Yf Yt V ref npAbs npAngle h
  rw [Prod.mk.injEq, Prod.mk.injEq] at hout
  obtain ⟨hb, hg, hbr⟩ := hout
  subst hb; subst hg; subst hbr
  set bus1 := updateBusV bus V npAbs npAngle with hbus1d
  set gen1 := updateQg baseMVA bus1 gen0 Ybus V with hgen1d
  set gen2 := updatePg baseMVA bus1 gen0 Ybus V ref gen1 with hgen2d
  set br1 := updateBranch baseMVA branch0 Yf Yt V with hbr1d
  have hl1 : gen1.length = gen0.length := by
    rw [hgen1d]
    exact updateQg_length baseMVA bus1 gen0 Ybus V
  have hl2 : gen2.length = gen0.length := by
    rw [hgen2d, updatePg_length baseMVA bus1 gen0 Ybus V ref gen1, hl1]
  have hstat2 : ∀ i, i < gen0.length →
      (gen2.getD i default).status = (gen0.getD i default).status := by
    intro i hi
    rw [hgen2d, updatePg_status baseMVA bus1 gen0 Ybus V ref gen1 default
        (by rw [hl1]; exact hi),
      hgen1d, updateQg_status baseMVA bus1 gen0 Ybus V default hi]
  have hbus2 : ∀ i, i < gen0.length →
      (gen2.getD i default).bus = (gen0.getD i default).bus := by
    intro i hi
    rw [hgen2d, updatePg_bus baseMVA bus1 gen0 Ybus V ref gen1 default
        (by rw [hl1]; exact hi),
      hgen1d, updateQg_bus baseMVA bus1 gen0 Ybus V default hi]
  have hqmin2 : ∀ i, i < gen0.length →
      (gen2.getD i default).qmin = (gen0.getD i default).qmin := by
    intro i hi
    rw [hgen2d, updatePg_qmin baseMVA bus1 gen0 Ybus V ref gen1 default
        (by rw [hl1]; exact hi),
      hgen1d, updateQg_qmin baseMVA bus1 gen0 Ybus V default hi]
  have hqmax2 : ∀ i, i < gen0.length →
      (gen2.getD i default).qmax = (gen0.getD i default).qmax := by
    intro i hi
    rw [hgen2d, updatePg_qmax baseMVA bus1 gen0 Ybus V ref gen1 default
        (by rw [hl1]; exact hi),
      hgen1d, updateQg_qmax baseMVA bus1 gen0 Ybus V default hi]
  have hshape : GenShapeEq gen2 gen0 := ⟨hl2, hstat2, hbus2, hqmin2, hqmax2⟩
  have hqg2on : ∀ i, i < gen0.length → 0 < (gen0.getD i default).status →
      (gen2.getD i default).qg =
        qgAt baseMVA bus1 gen0 Ybus V (posIn (onIdx gen0) i) := by
    intro i hi hon
    rw [hgen2d, updatePg_qg baseMVA bus1 gen0 Ybus V ref gen1 default
        (by rw [hl1]; exact hi),
      hgen1d, updateQg_qg_on baseMVA bus1 gen0 Ybus V default hi hon]
  have hqg2off : ∀ i, i < gen0.length → ¬ 0 < (gen0.getD i default).status →
      (gen2.getD i default).qg = 0 := by
    intro i hi hoff
    rw [hgen2d, updatePg_qg baseMVA bus1 gen0 Ybus V ref gen1 default
        (by rw [hl1]; exact hi),
      hgen1d, updateQg_qg_off baseMVA bus1 gen0 Ybus V default hi hoff]
  have h4 : updateBusV bus1 V npAbs npAngle = bus1 := by
    apply List.ext_getElem
    · rw [updateBusV_length bus1 V npAbs npAngle]
    · intro n h1 h2
      have hn : n < bus.length := by
        rw [hbus1d, updateBusV_length bus V npAbs npAngle] at h2
        exact h2
      have hn1 : n < bus1.length := h2
      rw [← List.getD_eq_getElem _ default h1, ← List.getD_eq_getElem _ default h2,
        updateBusV_getD bus1 V npAbs npAngle default hn1]
      apply Bus.set_v_self
      · rw [hbus1d, updateBusV_getD bus V npAbs npAngle default hn]
      · rw [hbus1d, updateBusV_getD bus V npAbs npAngle default hn]
  have h5a : updateQg baseMVA bus1 gen2 Ybus V = gen2 := by
    apply List.ext_getElem
    · rw [updateQg_length baseMVA bus1 gen2 Ybus V]
    · intro n h1 h2
      have hn2 : n < gen2.length := h2
      have hn0 : n < gen0.length := by rw [← hl2]; exact h2
      rw [← List.getD_eq_getElem _ default h1, ← List.getD_eq_getElem _ default h2,
        updateQg_getD baseMVA bus1 gen2 Ybus V default hn2]
      by_cases hon : 0 < (gen0.getD n default).status
      · have hon2 : 0 < (gen2.getD n default).status := by
          rw [hstat2 n hn0]; exact hon
        rw [if_pos hon2]
        apply Gen.set_qg_self
        rw [hqg2on n hn0 hon, shape_onIdx hshape,
          shape_qgAt hshape baseMVA bus1 Ybus V]
      · have hon2 : ¬ 0 < (gen2.getD n default).status := by
          rw [hstat2 n hn0]; exact hon
        rw [if_neg hon2]
        apply Gen.set_qg_self
        rw [hqg2off n hn0 hon]
  have hrefg2 : refgenIdx gen2 ref = refgenIdx gen0 ref := shape_refgenIdx hshape ref
  have hr2 : refgenIdx gen2 ref ≠ [] := by rw [hrefg2]; exact hr
  have hanch := anchor_mem gen0 ref hr
  have hanch2 : anchorAbs gen2 ref = anchorAbs gen0 ref := by
    rw [anchorAbs, anchorAbs, hrefg2, shape_onIdx hshape]
  have hanchlt1 : anchorAbs gen0 ref < gen1.length := by rw [hl1]; exact hanch.1
  have hpgA2 : pgAnchor baseMVA bus1 gen2 Ybus V ref gen2 =
      pgAnchor baseMVA bus1 gen0 Ybus V ref gen1 := by
    rw [pgAnchor, pgAnchor, hrefg2, shape_onIdx hshape, shape_gbusAt hshape]
    have hmap : (((refgenIdx gen0 ref).drop 1).map fun r =>
        (gen2.getD ((onIdx gen0).getD r 0) default).pg) =
        ((refgenIdx gen0 ref).drop 1).map fun r =>
          (gen1.getD ((onIdx gen0).getD r 0) default).pg := by
      apply List.map_eq_map_iff.mpr
      intro r hrm
      obtain ⟨hne, hrR⟩ := drop_refgen_ne_anchor gen0 ref hr hrm
      have hrlt : r < (onIdx gen0).length := (mem_busGens.mp hrR).1
      have habs := mem_onIdx.mp (onIdx_getD_mem hrlt)
      rw [hgen2d, updatePg_pg_other baseMVA bus1 gen0 Ybus V ref gen1 default
        (by rw [hl1]; exact habs.1) hne]
    rw [hmap]
  have hpg2anchor : (gen2.getD (anchorAbs gen0 ref) default).pg =
      pgAnchor baseMVA bus1 gen0 Ybus V ref gen1 := by
    rw [hgen2d, updatePg_pg_anchor baseMVA bus1 gen0 Ybus V ref gen1 default hanchlt1]
  have h5b : updatePg baseMVA bus1 gen2 Ybus V ref gen2 = gen2 := by
    apply List.ext_getElem
    · rw [updatePg_length baseMVA bus1 gen2 Ybus V ref gen2]
    · intro n h1 h2
      have hn2 : n < gen2.length := h2
      rw [← List.getD_eq_getElem _ default h1, ← List.getD_eq_getElem _ default h2,
        updatePg_getD baseMVA bus1 gen2 Ybus V ref gen2 default hn2]
      by_cases hna : n = anchorAbs gen2 ref
      · rw [if_pos hna]
        apply Gen.set_pg_self
        rw [hna, hanch2, hpg2anchor, hpgA2]
      · rw [if_neg hna]
  have h6 : updateBranch baseMVA br1 Yf Yt V = br1 := by
    apply List.ext_getElem
    · rw [updateBranch_length baseMVA br1 Yf Yt V]
    · intro n h1 h2
      have hnb : n < branch0.length := by
        rw [hbr1d, updateBranch_length baseMVA branch0 Yf Yt V] at h2
        exact h2
      have hn1 : n < br1.length := h2
      have hkeep := updateBranch_keeps baseMVA branch0 Yf Yt V default hnb
      rw [← hbr1d] at hkeep
      rw [← List.getD_eq_getElem _ default h1, ← List.getD_eq_getElem _ default h2,
        updateBranch_getD baseMVA br1 Yf Yt V default hn1]
      by_cases hst : (branch0.getD n default).status ≠ 0
      · have hst1 : (br1.getD n default).status ≠ 0 := by
          rw [hkeep.2.2.1]; exact hst
        have hbr1n : br1.getD n default =
            { branch0.getD n default with
              pf := (CQ.smul baseMVA (V.getD (branch0.getD n default).fbus 0 *
                CQ.conj (((List.range V.length).map
                  fun j2 => Yf n j2 * V.getD j2 0).sum))).re
              qf := (CQ.smul baseMVA (V.getD (branch0.getD n default).fbus 0 *
                CQ.conj (((List.range V.length).map
                  fun j2 => Yf n j2 * V.getD j2 0).sum))).im
              pt := (CQ.smul baseMVA (V.getD (branch0.getD n default).tbus 0 *
                CQ.conj (((List.range V.length).map
                  fun j2 => Yt n j2 * V.getD j2 0).sum))).re
              qt := (CQ.smul baseMVA (V.getD (branch0.getD n default).tbus 0 *
                CQ.conj (((List.range V.length).map
                  fun j2 => Yt n j2 * V.getD j2 0).sum))).im } := by
          rw [hbr1d, updateBranch_getD baseMVA branch0 Yf Yt V default hnb, if_pos hst]
        rw [if_pos hst1, hbr1n]
      · have hst0 : (branch0.getD n default).status = 0 := not_ne_iff.mp hst
        have hst1 : ¬ (br1.getD n default).status ≠ 0 := by
          rw [hkeep.2.2.1]; exact hst
        have hbr1n : br1.getD n default =
            { branch0.getD n default with pf := 0, qf := 0, pt := 0, qt := 0 } := by
          rw [hbr1d, updateBranch_out baseMVA branch0 Yf Yt V default hnb hst0]
        rw [if_neg hst1, hbr1n]
  simp only [pfsoln]
  rw [h4, h5a, h5b, h6, if_neg hr2]

/-- Witness for idempotent: re-running pfsoln on the concrete first-run
output returns the same tables. -/
theorem idempotent_witness :
    (pfsoln 2 busA genA branchA YbusA YfA YtA VA2 0 npAbsA npAngleA [] [] =
      Except.ok (busOutA, genOutA, branchOutA)) ∧
    pfsoln 2 busOutA genOutA branchOutA YbusA YfA YtA VA2 0 npAbsA npAngleA [] [] =
      Except.ok (busOutA, genOutA, branchOutA) :=
  ⟨pfsolnA_eval,
    idempotent 2 busA genA branchA YbusA YfA YtA VA2 0 npAbsA npAngleA [] []
      busOutA genOutA branchOutA pfsolnA_eval⟩

end PFSoln
